import Mathlib

/-!
PWM controller with UART command line (`main.c`)

A shallow embedding of the control logic of `main.c`: the receive-complete
callback that assembles command lines, the command interpreter
`UART_Process`, the PWM functions `PWM_Start`, `PWM_Stop`, `PWM_SetDuty`,
`PWM_SetFreq`, and the ramp of the main loop.

Conventions.
* `uint8_t` and `uint32_t` values are natural numbers; every place where C
  narrows or wraps a value carries an explicit `% 2 ^ 8` or `% 2 ^ 32`.
* A C `char` is represented by the character with the same code; a C string
  is the list of its characters before the terminating NUL.
* `printf` output is collected, in order, in the field `tx`; the calls made
  to the timer driver are collected, in order, in the field `ops`.
-/

namespace PwmCtl

/-! ## Constants (`main.c` lines 8-11) -/

/-- Size of the UART receive buffer. -/
def UART_BUF_SIZE : Nat := 64

/-- Default PWM frequency, 20 kHz. -/
def PWM_DEFAULT_FREQ : Nat := 20000

/-- Largest duty, in percent. -/
def MAX_DUTY : Nat := 100

/-- Delay in milliseconds between two ramp steps. -/
def DUTY_STEP_DELAY : Nat := 20

/-- Conversion of a C `int` to `uint8_t`: reduction modulo `2 ^ 8`. -/
def toU8 (i : Int) : Nat := (i % 2 ^ 8).toNat

/-- Conversion of a C `int` to `uint32_t`: reduction modulo `2 ^ 32`. -/
def toU32 (i : Int) : Nat := (i % 2 ^ 32).toNat

/-! ## The timer driver

The vendor driver is not part of `main.c`. It is modelled by the registers
and output-enable bits that `main.c` makes it write. -/

/-- The three channels of TIM1. -/
inductive Chan where
  | ch1
  | ch2
  | ch3
  deriving DecidableEq

/-- The calls `main.c` makes to the timer driver. -/
inductive HalOp where
  /-- `HAL_TIM_PWM_Start(&htim1, ch)` -/
  | pwmStart (c : Chan)
  /-- `HAL_TIMEx_PWMN_Start(&htim1, ch)` -/
  | pwmnStart (c : Chan)
  /-- `__HAL_TIM_MOE_ENABLE(&htim1)` -/
  | moeEnable
  /-- `HAL_TIMEx_PWMN_Stop(&htim1, ch)` -/
  | pwmnStop (c : Chan)
  /-- `HAL_TIM_PWM_Stop(&htim1, ch)` -/
  | pwmStop (c : Chan)
  /-- `__HAL_TIM_SET_COMPARE(&htim1, ch, v)` -/
  | setCompare (c : Chan) (v : Nat)
  /-- `__HAL_TIM_SET_AUTORELOAD(&htim1, v)` -/
  | setAutoreload (v : Nat)
  deriving DecidableEq

/-- The part of `htim1` and of the TIM1 peripheral that `main.c` uses.
`period` is `htim1.Init.Period`, which `__HAL_TIM_SET_AUTORELOAD` keeps equal
to the auto-reload register; `ccr1..3` are the compare registers; `oc1..3`
and `ocn1..3` are the enable bits of the primary and complementary outputs;
`moe` is the main output enable bit. -/
structure Tim where
  period : Nat
  ccr1 : Nat
  ccr2 : Nat
  ccr3 : Nat
  oc1 : Bool
  oc2 : Bool
  oc3 : Bool
  ocn1 : Bool
  ocn2 : Bool
  ocn3 : Bool
  moe : Bool
  deriving DecidableEq

/-- After a stop call the driver clears the main output enable bit once no
output of the timer is enabled any more. -/
def Tim.moeAfterStop (t : Tim) : Tim :=
  { t with moe := t.moe && (t.oc1 || t.oc2 || t.oc3 || t.ocn1 || t.ocn2 || t.ocn3) }

/-- Effect of one driver call on the timer. A start call enables its output
and the main output; a stop call disables its output. -/
def HalOp.apply : HalOp → Tim → Tim
  | .pwmStart .ch1, t => { t with oc1 := true, moe := true }
  | .pwmStart .ch2, t => { t with oc2 := true, moe := true }
  | .pwmStart .ch3, t => { t with oc3 := true, moe := true }
  | .pwmnStart .ch1, t => { t with ocn1 := true, moe := true }
  | .pwmnStart .ch2, t => { t with ocn2 := true, moe := true }
  | .pwmnStart .ch3, t => { t with ocn3 := true, moe := true }
  | .moeEnable, t => { t with moe := true }
  | .pwmnStop .ch1, t => Tim.moeAfterStop { t with ocn1 := false }
  | .pwmnStop .ch2, t => Tim.moeAfterStop { t with ocn2 := false }
  | .pwmnStop .ch3, t => Tim.moeAfterStop { t with ocn3 := false }
  | .pwmStop .ch1, t => Tim.moeAfterStop { t with oc1 := false }
  | .pwmStop .ch2, t => Tim.moeAfterStop { t with oc2 := false }
  | .pwmStop .ch3, t => Tim.moeAfterStop { t with oc3 := false }
  | .setCompare .ch1 v, t => { t with ccr1 := v }
  | .setCompare .ch2 v, t => { t with ccr2 := v }
  | .setCompare .ch3 v, t => { t with ccr3 := v }
  | .setAutoreload v, t => { t with period := v }

/-- All six outputs and the main output are enabled. -/
def Tim.outputsOn (t : Tim) : Bool :=
  t.oc1 && t.oc2 && t.oc3 && t.ocn1 && t.ocn2 && t.ocn3 && t.moe

/-- No output is enabled and the main output is disabled. -/
def Tim.outputsOff (t : Tim) : Bool :=
  !(t.oc1 || t.oc2 || t.oc3 || t.ocn1 || t.ocn2 || t.ocn3 || t.moe)

/-! ## The controller state (`main.c` lines 14-20) -/

/-- The PWM state: the globals `duty_now`, `duty_target`, `pwm_enabled`,
`pwm_freq` and the timer `htim1`. -/
structure Ctl where
  duty_now : Nat
  duty_target : Nat
  pwm_enabled : Nat
  pwm_freq : Nat
  htim1 : Tim
  deriving DecidableEq

/-- The PWM state together with what the program has emitted so far: `tx`,
the characters printed on the UART, and `ops`, the timer driver calls. -/
structure Sys where
  ctl : Ctl
  tx : List Char
  ops : List HalOp
  deriving DecidableEq

/-- One `printf` call with the already formatted text `t`. -/
def printf (t : List Char) (w : Sys) : Sys :=
  { w with tx := w.tx ++ t }

/-- One call to the timer driver: applied to `htim1` and recorded. -/
def hal (o : HalOp) (w : Sys) : Sys :=
  { w with ctl := { w.ctl with htim1 := o.apply w.ctl.htim1 }, ops := w.ops ++ [o] }

/-- Text printed for `%d` and `%lu` with a non-negative argument. -/
def dec (n : Nat) : List Char := Nat.toDigits 10 n

/-! ## PWM functions (`main.c` lines 122-187) -/

/-- `PWM_Start` (lines 122-136). -/
def PWM_Start (w : Sys) : Sys :=
  let w := hal (.pwmStart .ch1) w
  let w := hal (.pwmStart .ch2) w
  let w := hal (.pwmStart .ch3) w
  let w := hal (.pwmnStart .ch1) w
  let w := hal (.pwmnStart .ch2) w
  let w := hal (.pwmnStart .ch3) w
  let w := hal .moeEnable w
  let w := { w with ctl := { w.ctl with pwm_enabled := 1 } }
  printf "PWM START\r\n".toList w

/-- `PWM_Stop` (lines 139-151). -/
def PWM_Stop (w : Sys) : Sys :=
  let w := hal (.pwmnStop .ch1) w
  let w := hal (.pwmnStop .ch2) w
  let w := hal (.pwmnStop .ch3) w
  let w := hal (.pwmStop .ch1) w
  let w := hal (.pwmStop .ch2) w
  let w := hal (.pwmStop .ch3) w
  let w := { w with ctl := { w.ctl with pwm_enabled := 0 } }
  printf "PWM STOP\r\n".toList w

/-- `PWM_SetDuty` (lines 154-165). The argument is the value of the
`uint8_t` parameter; the product on line 158 is a `uint32_t` product. -/
def PWM_SetDuty (duty : Nat) (w : Sys) : Sys :=
  let duty := if duty > MAX_DUTY then MAX_DUTY else duty
  let pulse := (w.ctl.htim1.period * duty) % 2 ^ 32 / 100
  let w := hal (.setCompare .ch1 pulse) w
  let w := hal (.setCompare .ch2 pulse) w
  let w := hal (.setCompare .ch3 pulse) w
  { w with ctl := { w.ctl with duty_now := duty } }

/-- `PWM_SetFreq` (lines 168-187). `clk` is the value returned by
`HAL_RCC_GetPCLK2Freq()`, `freq` the value of the `uint32_t` parameter; the
subtraction on line 178 is a `uint32_t` subtraction. -/
def PWM_SetFreq (clk freq : Nat) (w : Sys) : Sys :=
  if freq < 1000 || freq > 50000 then
    printf "FREQ ERR\r\n".toList w
  else
    let arr := (clk / freq + 2 ^ 32 - 1) % 2 ^ 32
    let w := PWM_Stop w
    let w := hal (.setAutoreload arr) w
    let w := PWM_SetDuty w.ctl.duty_now w
    let w := PWM_Start w
    let w := { w with ctl := { w.ctl with pwm_freq := freq } }
    printf ("FREQ ".toList ++ dec freq ++ " Hz\r\n".toList) w

/-! ## C library functions used by the interpreter -/

/-- `isspace` in the C locale. -/
def isspace (c : Char) : Bool :=
  c = ' ' || c = '\t' || c = '\n' || c = Char.ofNat 11 || c = Char.ofNat 12 || c = '\r'

/-- `isdigit`. -/
def isdigit (c : Char) : Bool := '0' ≤ c && c ≤ '9'

/-- The digit loop of `atoi`: reads decimal digits until the first character
that is not a digit. -/
def atoiDigits (acc : Nat) : List Char → Nat
  | [] => acc
  | c :: cs => if isdigit c then atoiDigits (acc * 10 + (c.toNat - 48)) cs else acc

/-- `atoi`: skips white space, reads an optional sign and then decimal
digits. The result is the mathematical value; C defines `atoi` only when
that value fits in an `int`. -/
def atoi (s : List Char) : Int :=
  match s.dropWhile isspace with
  | [] => 0
  | c :: r =>
    if c = '-' then -(atoiDigits 0 r : Int)
    else if c = '+' then (atoiDigits 0 r : Int)
    else (atoiDigits 0 (c :: r) : Int)

/-- `strncmp(a, b, n) == 0` for two C strings. -/
def strncmpEq (a b : List Char) (n : Nat) : Bool := a.take n == b.take n

/-- `strcmp(a, b) == 0` for two C strings. -/
def strcmpEq (a b : List Char) : Bool := a == b

/-! ## The command interpreter (`main.c` lines 190-226) -/

/-- `UART_Process` (lines 190-226) on the C string `cmd`. -/
def UART_Process (clk : Nat) (cmd : List Char) (w : Sys) : Sys :=
  if strncmpEq cmd "set ".toList 4 then
    let t := toU8 (atoi (cmd.drop 4))
    let t := if t > 100 then 100 else t
    let w := { w with ctl := { w.ctl with duty_target := t } }
    printf ("TARGET ".toList ++ dec t ++ "%\r\n".toList) w
  else if strncmpEq cmd "freq ".toList 5 then
    PWM_SetFreq clk (toU32 (atoi (cmd.drop 5))) w
  else if strcmpEq cmd "start".toList then
    PWM_Start w
  else if strcmpEq cmd "stop".toList then
    PWM_Stop w
  else if strcmpEq cmd "status".toList then
    let w := printf ("Duty: ".toList ++ dec w.ctl.duty_now ++ "% -> ".toList
                      ++ dec w.ctl.duty_target ++ "%\r\n".toList) w
    let w := printf ("Freq: ".toList ++ dec w.ctl.pwm_freq ++ " Hz\r\n".toList) w
    printf ("State: ".toList ++ (if w.ctl.pwm_enabled ≠ 0 then "ON".toList else "OFF".toList)
              ++ "\r\n".toList) w
  else
    printf "CMD ERR\r\n".toList w

/-! ## The ramp of the main loop (`main.c` lines 110-115) -/

/-- The ramp step, lines 113-114: the body of the timed `if`. The argument
of `PWM_SetDuty` is an `int` narrowed to the `uint8_t` parameter. -/
def rampStep (w : Sys) : Sys :=
  if w.ctl.duty_now < w.ctl.duty_target then
    PWM_SetDuty (toU8 ((w.ctl.duty_now : Int) + 1)) w
  else if w.ctl.duty_now > w.ctl.duty_target then
    PWM_SetDuty (toU8 ((w.ctl.duty_now : Int) - 1)) w
  else w

/-- The ramp step applied `n` times in a row. -/
def rampSteps : Nat → Sys → Sys
  | 0, w => w
  | n + 1, w => rampSteps n (rampStep w)

/-! ## The receive channel (`main.c` lines 22-24 and 54-77) -/

/-- The receive state: `uart_buf`, `uart_idx`, `uart_ready`, and `rx_at`,
the position of `uart_buf` given to the last `HAL_UART_Receive_IT` call,
where the driver stores the next received byte. -/
structure Rx where
  uart_buf : List Char
  uart_idx : Nat
  uart_ready : Nat
  rx_at : Nat
  deriving DecidableEq

/-- `HAL_UART_RxCpltCallback` (lines 54-77). `isUart5` is the test
`huart->Instance == UART5`; `uart_idx++` is a `uint8_t` increment. -/
def HAL_UART_RxCpltCallback (isUart5 : Bool) (r : Rx) : Rx :=
  if isUart5 then
    let c := r.uart_buf.getD r.uart_idx (Char.ofNat 0)
    let r :=
      if c = '\r' || c = '\n' then
        { r with uart_buf := r.uart_buf.set r.uart_idx (Char.ofNat 0),
                 uart_ready := 1, uart_idx := 0 }
      else
        let i := (r.uart_idx + 1) % 2 ^ 8
        { r with uart_idx := if i ≥ UART_BUF_SIZE then 0 else i }
    { r with rx_at := r.uart_idx }
  else r

/-- Reception of one byte on UART5: the driver stores it at the armed
position of `uart_buf`, then runs the receive-complete callback. -/
def rxByte (b : Char) (r : Rx) : Rx :=
  HAL_UART_RxCpltCallback true { r with uart_buf := r.uart_buf.set r.rx_at b }

/-- Reception of a sequence of bytes, first byte first. -/
def rxBytes : List Char → Rx → Rx
  | [], r => r
  | b :: bs, r => rxBytes bs (rxByte b r)

/-- The C string that starts at `uart_buf[0]`. -/
def cstr (buf : List Char) : List Char :=
  buf.takeWhile (fun c => c ≠ Char.ofNat 0)

/-! ## Start-up and main loop (`main.c` lines 80-117 and 229-263) -/

/-- The timer as `MX_TIM1_Init` leaves it (lines 229-263): period
`clk / PWM_DEFAULT_FREQ - 1`, every compare register at half the period, no
output enabled. -/
def MX_TIM1_Init (clk : Nat) : Tim :=
  let arr := (clk / PWM_DEFAULT_FREQ + 2 ^ 32 - 1) % 2 ^ 32
  { period := arr, ccr1 := arr / 2, ccr2 := arr / 2, ccr3 := arr / 2,
    oc1 := false, oc2 := false, oc3 := false,
    ocn1 := false, ocn2 := false, ocn3 := false, moe := false }

/-- The state when `main` reaches line 92: the globals hold their
initialisers (lines 17-20) and the timer is initialised. -/
def initSys (clk : Nat) : Sys :=
  { ctl := { duty_now := 50, duty_target := 50, pwm_enabled := 0,
             pwm_freq := PWM_DEFAULT_FREQ, htim1 := MX_TIM1_Init clk },
    tx := [], ops := [] }

/-- The boot sequence, lines 93-96: `PWM_SetDuty(duty_now)`, `PWM_Start()`
and the banner. -/
def boot (clk : Nat) : Sys :=
  let w := initSys clk
  let w := PWM_SetDuty w.ctl.duty_now w
  let w := PWM_Start w
  printf "\r\n=== PWM CONTROLLER READY ===\r\n".toList w

/-- The receive state when `main` reaches line 92: `uart_idx` and
`uart_ready` hold their initialisers and line 90 has armed the reception at
`uart_buf[uart_idx]`. -/
def initRx (buf : List Char) : Rx :=
  { uart_buf := buf, uart_idx := 0, uart_ready := 0, rx_at := 0 }

/-- The state of the main loop: receive channel, PWM state and the local
variable `last`. -/
structure Machine where
  rx : Rx
  sys : Sys
  last : Nat
  deriving DecidableEq

/-- One iteration of the `while (1)` loop (lines 103-115). `t1` and `t2`
are the values returned by the two `HAL_GetTick()` calls; the subtraction
on line 110 is a `uint32_t` subtraction. -/
def mainLoopIter (clk t1 t2 : Nat) (m : Machine) : Machine :=
  let m :=
    if m.rx.uart_ready ≠ 0 then
      { m with rx := { m.rx with uart_ready := 0 },
               sys := UART_Process clk (cstr m.rx.uart_buf) m.sys }
    else m
  if (t1 + 2 ^ 32 - m.last) % 2 ^ 32 > DUTY_STEP_DELAY then
    { m with last := t2, sys := rampStep m.sys }
  else m

/-- Decimal text of an integer, as a sender writes it on a command line. -/
def intText (d : Int) : List Char :=
  if d < 0 then '-' :: Nat.toDigits 10 d.natAbs else Nat.toDigits 10 d.natAbs

/-- A sample state: after boot with a 16 MHz clock and the line `set 80`. -/
def sampleRamping : Sys := UART_Process 16000000 "set 80".toList (boot 16000000)

/-! ## Runs, invariants and trace checks used in the statements -/

/-- What the main loop does to the PWM state: it processes one received
command line (lines 103-107) or performs one ramp step (lines 113-114). -/
inductive Event where
  | line (cmd : List Char)
  | ramp
  deriving DecidableEq

/-- Effect of one event on the PWM state. -/
def runEvent (clk : Nat) : Event → Sys → Sys
  | .line cmd, w => UART_Process clk cmd w
  | .ramp, w => rampStep w

/-- Effect of a sequence of events, first event first. -/
def run (clk : Nat) : List Event → Sys → Sys
  | [], w => w
  | e :: es, w => run clk es (runEvent clk e w)

/-- The range invariant of the PWM state: both duties are at most 100 and
the frequency lies in `[1000, 50000]`. -/
def RangeInv (w : Sys) : Prop :=
  w.ctl.duty_now ≤ 100 ∧ w.ctl.duty_target ≤ 100 ∧
  1000 ≤ w.ctl.pwm_freq ∧ w.ctl.pwm_freq ≤ 50000

/-- The range invariant can be computed. -/
instance RangeInv.decidable (w : Sys) : Decidable (RangeInv w) := by
  unfold RangeInv
  infer_instance

/-- The index invariant of the receive channel: `uart_idx` is a valid index
of `uart_buf`, the buffer has its declared size, and the reception is armed
at `uart_buf[uart_idx]`. -/
def RxInv (r : Rx) : Prop :=
  r.uart_idx < UART_BUF_SIZE ∧ r.rx_at = r.uart_idx ∧ r.uart_buf.length = UART_BUF_SIZE

/-- The index invariant can be computed. -/
instance RxInv.decidable (r : Rx) : Decidable (RxInv r) := by
  unfold RxInv
  infer_instance

/-- The compare invariant: the three compare registers hold
`duty_now * period / 100`, with `duty_now ≤ 100` and a period small enough
for the 32-bit product of line 158. -/
def CompareInv (w : Sys) : Prop :=
  w.ctl.htim1.ccr1 = w.ctl.duty_now * w.ctl.htim1.period / 100 ∧
  w.ctl.htim1.ccr2 = w.ctl.duty_now * w.ctl.htim1.period / 100 ∧
  w.ctl.htim1.ccr3 = w.ctl.duty_now * w.ctl.htim1.period / 100 ∧
  w.ctl.duty_now ≤ 100 ∧ w.ctl.htim1.period * 100 < 2 ^ 32

/-- Whether a driver call writes the period or a compare register. -/
def HalOp.writesReg : HalOp → Bool
  | .setCompare _ _ => true
  | .setAutoreload _ => true
  | _ => false

/-- Replays driver calls from the timer state `t` and checks that every
write of the period or of a compare register finds all outputs disabled. -/
def writesWhileOff (t : Tim) : List HalOp → Bool
  | [] => true
  | o :: os => (!o.writesReg || t.outputsOff) && writesWhileOff (o.apply t) os

/-- The driver calls of `PWM_Stop`, in order. -/
def stopOps : List HalOp :=
  [.pwmnStop .ch1, .pwmnStop .ch2, .pwmnStop .ch3,
   .pwmStop .ch1, .pwmStop .ch2, .pwmStop .ch3]

/-- The driver calls of `PWM_Start`, in order. -/
def startOps : List HalOp :=
  [.pwmStart .ch1, .pwmStart .ch2, .pwmStart .ch3,
   .pwmnStart .ch1, .pwmnStart .ch2, .pwmnStart .ch3, .moeEnable]

/-- A sample state of the main loop: a ramp in progress (target 80, duty
50), no line pending, last step at tick 1000. -/
def sampleMachine : Machine :=
  { rx := initRx (List.replicate 64 (Char.ofNat 0)), sys := sampleRamping, last := 1000 }

/-- A sample receive state with the write index at the last position of the
buffer. -/
def sampleRxAtEnd : Rx :=
  { uart_buf := List.replicate 64 'x', uart_idx := 63, uart_ready := 0, rx_at := 63 }

/-- A sample line of 70 bytes, longer than the buffer: 64 times `a`, then
`set 80`. -/
def sampleLongLine : List Char := List.replicate 64 'a' ++ "set 80".toList

/-- Value of a list of decimal digit characters, most significant first. -/
def digitsVal (acc : Nat) (l : List Char) : Nat :=
  l.foldl (fun a c => a * 10 + (c.toNat - 48)) acc

/-! ## The decimal text of a number is read back by `atoi` -/

theorem digitChar_isdigit (k : Nat) (h : k < 10) :
    isdigit (Nat.digitChar k) = true ∧ (Nat.digitChar k).toNat - 48 = k := by
  interval_cases k <;> exact ⟨by decide, by decide⟩

theorem atoiDigits_eq_digitsVal (l : List Char) (hl : ∀ c ∈ l, isdigit c = true) (acc : Nat) :
    atoiDigits acc l = digitsVal acc l := by
  induction l generalizing acc with
  | nil => rfl
  | cons c cs ih =>
    have hc : isdigit c = true := hl c (List.mem_cons_self _ _)
    have hcs : ∀ x ∈ cs, isdigit x = true := fun x hx => hl x (List.mem_cons_of_mem _ hx)
    simp only [atoiDigits, hc, if_true, digitsVal, List.foldl_cons]
    exact ih hcs _

theorem toDigitsCore_append (fuel n : Nat) (ds : List Char) :
    Nat.toDigitsCore 10 fuel n ds = Nat.toDigitsCore 10 fuel n [] ++ ds := by
  induction fuel generalizing n ds with
  | zero => simp [Nat.toDigitsCore]
  | succ k ih =>
    simp only [Nat.toDigitsCore]
    split
    · simp
    · rw [ih (n / 10) (Nat.digitChar (n % 10) :: ds), ih (n / 10) [Nat.digitChar (n % 10)]]
      simp

theorem toDigitsCore_spec (fuel n : Nat) (h : n < fuel) :
    (∀ c ∈ Nat.toDigitsCore 10 fuel n [], isdigit c = true) ∧
    digitsVal 0 (Nat.toDigitsCore 10 fuel n []) = n ∧
    Nat.toDigitsCore 10 fuel n [] ≠ [] := by
  induction fuel generalizing n with
  | zero => omega
  | succ k ih =>
    have hd := digitChar_isdigit (n % 10) (Nat.mod_lt _ (by decide))
    simp only [Nat.toDigitsCore]
    split
    · rename_i h0
      refine ⟨?_, ?_, by simp⟩
      · intro c hc
        simp only [List.mem_singleton] at hc
        rw [hc]; exact hd.1
      · simp only [digitsVal, List.foldl_cons, List.foldl_nil, hd.2]
        omega
    · rename_i h0
      have hlt : n / 10 < k := by omega
      obtain ⟨h1, h2, _⟩ := ih (n / 10) hlt
      rw [toDigitsCore_append]
      refine ⟨?_, ?_, by simp⟩
      · intro c hc
        rcases List.mem_append.1 hc with hc | hc
        · exact h1 c hc
        · simp only [List.mem_singleton] at hc
          rw [hc]; exact hd.1
      · have : digitsVal 0 (Nat.toDigitsCore 10 k (n / 10) [] ++ [Nat.digitChar (n % 10)])
            = digitsVal 0 (Nat.toDigitsCore 10 k (n / 10) []) * 10
              + ((Nat.digitChar (n % 10)).toNat - 48) := by
          simp [digitsVal, List.foldl_append]
        rw [this, h2, hd.2]
        omega

theorem dec_spec (n : Nat) :
    (∀ c ∈ dec n, isdigit c = true) ∧ atoiDigits 0 (dec n) = n ∧ dec n ≠ [] := by
  obtain ⟨h1, h2, h3⟩ := toDigitsCore_spec (n + 1) n (Nat.lt_succ_self n)
  refine ⟨h1, ?_, h3⟩
  rw [dec, Nat.toDigits, atoiDigits_eq_digitsVal _ h1, h2]

theorem isdigit_not_space (c : Char) (h : isdigit c = true) :
    isspace c = false ∧ c ≠ '-' ∧ c ≠ '+' := by
  simp only [isdigit, Bool.and_eq_true, decide_eq_true_eq] at h
  obtain ⟨h1, h2⟩ := h
  have h1' : 48 ≤ c.toNat := h1
  have h2' : c.toNat ≤ 57 := h2
  refine ⟨?_, ?_, ?_⟩
  · simp only [isspace, Bool.or_eq_false_iff, decide_eq_false_iff_not]
    refine ⟨⟨⟨⟨⟨?_, ?_⟩, ?_⟩, ?_⟩, ?_⟩, ?_⟩ <;> intro hc <;> rw [hc] at h1' <;> revert h1' <;> decide
  · intro hc; rw [hc] at h1'; revert h1'; decide
  · intro hc; rw [hc] at h1'; revert h1'; decide

theorem atoi_dec (n : Nat) : atoi (dec n) = (n : Int) := by
  obtain ⟨h1, h2, h3⟩ := dec_spec n
  cases hl : dec n with
  | nil => exact absurd hl h3
  | cons c r =>
    have hc : isdigit c = true := h1 c (by rw [hl]; exact List.mem_cons_self _ _)
    obtain ⟨hs, hm, hp⟩ := isdigit_not_space c hc
    rw [hl] at h2
    simp only [atoi, List.dropWhile, hs, hm, hp, if_false, h2]

theorem atoi_intText (d : Int) : atoi (intText d) = d := by
  unfold intText
  split
  · rename_i hneg
    obtain ⟨_, h2, _⟩ := dec_spec d.natAbs
    have : isspace '-' = false := by decide
    simp only [atoi, List.dropWhile, this, if_true]
    rw [dec] at h2
    rw [h2]
    omega
  · rename_i hpos
    have := atoi_dec d.natAbs
    rw [dec] at this
    rw [this]
    omega

theorem intText_ofNat (n : Nat) : intText (n : Int) = dec n := by
  have h : ¬ ((n : Int) < 0) := by omega
  simp only [intText, h, if_false, Int.natAbs_ofNat, dec]

theorem toU8_of_small (d : Nat) (h : d < 256) : toU8 (d : Int) = d := by
  unfold toU8
  omega

theorem toU32_of_small (d : Nat) (h : d < 4294967296) : toU32 (d : Int) = d := by
  unfold toU32
  omega

theorem toU32_out_of_range (f : Int) (hlo : -2147483648 ≤ f) (hhi : f ≤ 2147483647)
    (hout : f < 1000 ∨ 50000 < f) : toU32 f < 1000 ∨ 50000 < toU32 f := by
  unfold toU32
  omega

/-! ## Dispatch of the command interpreter -/

theorem strncmpEq_set (t : List Char) : strncmpEq ("set ".toList ++ t) "set ".toList 4 = true := by
  have : "set ".toList = ['s', 'e', 't', ' '] := rfl
  simp [strncmpEq, this]

theorem strncmpEq_freq (t : List Char) :
    strncmpEq ("freq ".toList ++ t) "freq ".toList 5 = true ∧
    strncmpEq ("freq ".toList ++ t) "set ".toList 4 = false := by
  have h1 : "freq ".toList = ['f', 'r', 'e', 'q', ' '] := rfl
  have h2 : "set ".toList = ['s', 'e', 't', ' '] := rfl
  simp [strncmpEq, h1, h2]

theorem strncmpEq_iff_isPrefix (cmd lit : List Char) :
    strncmpEq cmd lit lit.length = true ↔ lit <+: cmd := by
  simp only [strncmpEq, List.take_length, beq_iff_eq]
  rw [List.prefix_iff_eq_take]
  exact eq_comm

theorem UART_Process_set (clk : Nat) (t : List Char) (w : Sys) :
    UART_Process clk ("set ".toList ++ t) w =
      printf ("TARGET ".toList ++ dec (if toU8 (atoi t) > 100 then 100 else toU8 (atoi t))
                ++ "%\r\n".toList)
        { w with ctl := { w.ctl with
            duty_target := if toU8 (atoi t) > 100 then 100 else toU8 (atoi t) } } := by
  have hd : ("set ".toList ++ t).drop 4 = t := by
    have : "set ".toList = ['s', 'e', 't', ' '] := rfl
    simp [this]
  simp only [UART_Process, strncmpEq_set, if_true, hd]

theorem UART_Process_freq (clk : Nat) (t : List Char) (w : Sys) :
    UART_Process clk ("freq ".toList ++ t) w = PWM_SetFreq clk (toU32 (atoi t)) w := by
  have hd : ("freq ".toList ++ t).drop 5 = t := by
    have : "freq ".toList = ['f', 'r', 'e', 'q', ' '] := rfl
    simp [this]
  simp only [UART_Process, (strncmpEq_freq t).1, (strncmpEq_freq t).2, if_true, hd]
  simp

theorem UART_Process_status (clk : Nat) (w : Sys) :
    UART_Process clk "status".toList w =
      { w with tx := w.tx ++ ("Duty: ".toList ++ dec w.ctl.duty_now ++ "% -> ".toList
                        ++ dec w.ctl.duty_target ++ "%\r\n".toList)
                      ++ ("Freq: ".toList ++ dec w.ctl.pwm_freq ++ " Hz\r\n".toList)
                      ++ ("State: ".toList
                            ++ (if w.ctl.pwm_enabled ≠ 0 then "ON".toList else "OFF".toList)
                            ++ "\r\n".toList) } := by
  have h1 : strncmpEq "status".toList "set ".toList 4 = false := by decide
  have h2 : strncmpEq "status".toList "freq ".toList 5 = false := by decide
  have h3 : strcmpEq "status".toList "start".toList = false := by decide
  have h4 : strcmpEq "status".toList "stop".toList = false := by decide
  have h5 : strcmpEq "status".toList "status".toList = true := by decide
  simp only [UART_Process, h1, h2, h3, h4, h5, printf]
  simp

theorem UART_Process_unknown (clk : Nat) (cmd : List Char) (w : Sys)
    (hset : ¬ "set ".toList <+: cmd) (hfreq : ¬ "freq ".toList <+: cmd)
    (hstart : cmd ≠ "start".toList) (hstop : cmd ≠ "stop".toList)
    (hstatus : cmd ≠ "status".toList) :
    UART_Process clk cmd w = printf "CMD ERR\r\n".toList w := by
  have h1 : strncmpEq cmd "set ".toList 4 = false := by
    rw [← Bool.not_eq_true]
    exact fun h => hset ((strncmpEq_iff_isPrefix cmd "set ".toList).1 h)
  have h2 : strncmpEq cmd "freq ".toList 5 = false := by
    rw [← Bool.not_eq_true]
    exact fun h => hfreq ((strncmpEq_iff_isPrefix cmd "freq ".toList).1 h)
  have h3 : strcmpEq cmd "start".toList = false := by simpa [strcmpEq] using hstart
  have h4 : strcmpEq cmd "stop".toList = false := by simpa [strcmpEq] using hstop
  have h5 : strcmpEq cmd "status".toList = false := by simpa [strcmpEq] using hstatus
  simp only [UART_Process, h1, h2, h3, h4, h5]
  simp

theorem set_target_small (clk d : Nat) (w : Sys) (hd : d ≤ 100) :
    (UART_Process clk ("set ".toList ++ intText d) w).ctl.duty_target = d ∧
    (UART_Process clk ("set ".toList ++ intText d) w).ctl.duty_now = w.ctl.duty_now := by
  have hu : toU8 (d : Int) = d := toU8_of_small d (by omega)
  have hc : ¬ d > 100 := by omega
  rw [UART_Process_set, atoi_intText, hu]
  simp only [hc, if_false, printf, and_self]

/-! ## Effect of the PWM functions on the state -/

theorem PWM_Start_ctl (w : Sys) :
    (PWM_Start w).ctl =
      { w.ctl with pwm_enabled := 1,
                   htim1 := { w.ctl.htim1 with oc1 := true, oc2 := true, oc3 := true,
                                               ocn1 := true, ocn2 := true, ocn3 := true,
                                               moe := true } } := by
  simp [PWM_Start, hal, printf, HalOp.apply]

theorem PWM_Start_tx (w : Sys) : (PWM_Start w).tx = w.tx ++ "PWM START\r\n".toList := by
  simp [PWM_Start, hal, printf]

theorem PWM_Stop_ctl (w : Sys) :
    (PWM_Stop w).ctl =
      { w.ctl with pwm_enabled := 0,
                   htim1 := { w.ctl.htim1 with oc1 := false, oc2 := false, oc3 := false,
                                               ocn1 := false, ocn2 := false, ocn3 := false,
                                               moe := false } } := by
  simp [PWM_Stop, hal, printf, HalOp.apply, Tim.moeAfterStop]

theorem PWM_Stop_tx (w : Sys) : (PWM_Stop w).tx = w.tx ++ "PWM STOP\r\n".toList := by
  simp [PWM_Stop, hal, printf]

theorem PWM_SetDuty_ctl (duty : Nat) (w : Sys) :
    (PWM_SetDuty duty w).ctl =
      { w.ctl with
          duty_now := min duty 100,
          htim1 := { w.ctl.htim1 with
            ccr1 := (w.ctl.htim1.period * min duty 100) % 2 ^ 32 / 100,
            ccr2 := (w.ctl.htim1.period * min duty 100) % 2 ^ 32 / 100,
            ccr3 := (w.ctl.htim1.period * min duty 100) % 2 ^ 32 / 100 } } := by
  have hm : (if duty > MAX_DUTY then MAX_DUTY else duty) = min duty 100 := by
    simp only [MAX_DUTY]; split <;> omega
  simp only [PWM_SetDuty, hm, hal, HalOp.apply]

theorem PWM_SetDuty_tx (duty : Nat) (w : Sys) : (PWM_SetDuty duty w).tx = w.tx := by
  simp [PWM_SetDuty, hal]

theorem PWM_SetDuty_ops (duty : Nat) (w : Sys) :
    (PWM_SetDuty duty w).ops = w.ops ++
      [.setCompare .ch1 ((w.ctl.htim1.period * min duty 100) % 2 ^ 32 / 100),
       .setCompare .ch2 ((w.ctl.htim1.period * min duty 100) % 2 ^ 32 / 100),
       .setCompare .ch3 ((w.ctl.htim1.period * min duty 100) % 2 ^ 32 / 100)] := by
  have hm : (if duty > MAX_DUTY then MAX_DUTY else duty) = min duty 100 := by
    simp only [MAX_DUTY]; split <;> omega
  simp only [PWM_SetDuty, hm, hal, HalOp.apply]
  simp

theorem PWM_SetFreq_ok_ctl (clk f : Nat) (w : Sys) (hlo : 1000 ≤ f) (hhi : f ≤ 50000) :
    (PWM_SetFreq clk f w).ctl =
      { duty_now := min w.ctl.duty_now 100,
        duty_target := w.ctl.duty_target,
        pwm_enabled := 1,
        pwm_freq := f,
        htim1 :=
          { period := (clk / f + 2 ^ 32 - 1) % 2 ^ 32,
            ccr1 := ((clk / f + 2 ^ 32 - 1) % 2 ^ 32 * min w.ctl.duty_now 100) % 2 ^ 32 / 100,
            ccr2 := ((clk / f + 2 ^ 32 - 1) % 2 ^ 32 * min w.ctl.duty_now 100) % 2 ^ 32 / 100,
            ccr3 := ((clk / f + 2 ^ 32 - 1) % 2 ^ 32 * min w.ctl.duty_now 100) % 2 ^ 32 / 100,
            oc1 := true, oc2 := true, oc3 := true,
            ocn1 := true, ocn2 := true, ocn3 := true, moe := true } } := by
  have hc : (decide (f < 1000) || decide (f > 50000)) = false := by
    simp only [Bool.or_eq_false_iff, decide_eq_false_iff_not]
    omega
  simp only [PWM_SetFreq, hc, printf, PWM_Start_ctl, PWM_SetDuty_ctl, hal, PWM_Stop_ctl,
    HalOp.apply]
  simp

theorem arr_no_wrap (clk f : Nat) (hlo : 1000 ≤ f) (hclk : f ≤ clk) (h32 : clk < 2 ^ 32) :
    (clk / f + 2 ^ 32 - 1) % 2 ^ 32 = clk / f - 1 ∧ (clk / f - 1) * 100 < 2 ^ 32 := by
  have hpos : 0 < f := by omega
  have h1 : 1 ≤ clk / f := (Nat.one_le_div_iff hpos).2 hclk
  have h2 : clk / f ≤ clk / 1000 := Nat.div_le_div_left hlo (by decide)
  have h3 : clk / 1000 ≤ 4294967 := by omega
  constructor
  · omega
  · omega

/-! ## The ramp -/

theorem rampStep_ctl (w : Sys) (hnow : w.ctl.duty_now ≤ 100) (htgt : w.ctl.duty_target ≤ 100) :
    (rampStep w).ctl.duty_now =
        (if w.ctl.duty_now < w.ctl.duty_target then w.ctl.duty_now + 1
         else if w.ctl.duty_now > w.ctl.duty_target then w.ctl.duty_now - 1
         else w.ctl.duty_now) ∧
    (rampStep w).ctl.duty_target = w.ctl.duty_target ∧
    (rampStep w).ctl.pwm_freq = w.ctl.pwm_freq ∧
    (rampStep w).ctl.pwm_enabled = w.ctl.pwm_enabled := by
  unfold rampStep
  by_cases h1 : w.ctl.duty_now < w.ctl.duty_target
  · have hu : toU8 ((w.ctl.duty_now : Int) + 1) = w.ctl.duty_now + 1 := by
      unfold toU8; omega
    have hm : min (w.ctl.duty_now + 1) 100 = w.ctl.duty_now + 1 := by omega
    simp only [h1, if_true, PWM_SetDuty_ctl, hu, hm, and_self]
  · by_cases h2 : w.ctl.duty_now > w.ctl.duty_target
    · have hu : toU8 ((w.ctl.duty_now : Int) - 1) = w.ctl.duty_now - 1 := by
        unfold toU8; omega
      have hm : min (w.ctl.duty_now - 1) 100 = w.ctl.duty_now - 1 := by omega
      simp only [h1, h2, if_true, if_false, PWM_SetDuty_ctl, hu, hm, and_self]
    · simp only [h1, h2, if_false, and_self]

theorem rampSteps_reaches (n : Nat) (w : Sys)
    (hnow : w.ctl.duty_now ≤ 100) (htgt : w.ctl.duty_target ≤ 100)
    (hn : Int.natAbs ((w.ctl.duty_target : Int) - w.ctl.duty_now) ≤ n) :
    (rampSteps n w).ctl.duty_now = w.ctl.duty_target ∧
    (rampSteps n w).ctl.duty_target = w.ctl.duty_target := by
  induction n generalizing w with
  | zero =>
    have : w.ctl.duty_now = w.ctl.duty_target := by omega
    exact ⟨this, rfl⟩
  | succ k ih =>
    obtain ⟨h1, h2, _, _⟩ := rampStep_ctl w hnow htgt
    have hnow1 : (rampStep w).ctl.duty_now ≤ 100 := by
      rw [h1]; split
      · omega
      · split <;> omega
    have hk : Int.natAbs (((rampStep w).ctl.duty_target : Int) - (rampStep w).ctl.duty_now) ≤ k := by
      rw [h1, h2]; split
      · omega
      · split <;> omega
    have := ih (rampStep w) hnow1 (by rw [h2]; exact htgt) hk
    rw [h2] at this
    exact this

/-! ## The line assembler -/

theorem take_succ_set (l : List Char) (i : Nat) (b : Char) (h : i < l.length) :
    (l.set i b).take (i + 1) = l.take i ++ [b] := by
  induction l generalizing i with
  | nil => simp at h
  | cons x xs ih =>
    cases i with
    | zero => simp
    | succ j =>
      have hj : j < xs.length := by simpa using h
      simp [ih j hj]

theorem set_eq_take_cons_drop (l : List Char) (i : Nat) (b : Char) (h : i < l.length) :
    l.set i b = l.take i ++ b :: l.drop (i + 1) := by
  induction l generalizing i with
  | nil => simp at h
  | cons x xs ih =>
    cases i with
    | zero => simp
    | succ j =>
      have hj : j < xs.length := by simpa using h
      simp [ih j hj]

theorem cstr_append_nul (s rest : List Char) (hs : ∀ c ∈ s, c ≠ Char.ofNat 0) :
    cstr (s ++ Char.ofNat 0 :: rest) = s := by
  induction s with
  | nil => simp [cstr]
  | cons x xs ih =>
    have hx : x ≠ Char.ofNat 0 := hs x (List.mem_cons_self _ _)
    have hxs : ∀ c ∈ xs, c ≠ Char.ofNat 0 := fun c hc => hs c (List.mem_cons_of_mem _ hc)
    have hd : decide (x ≠ Char.ofNat 0) = true := decide_eq_true hx
    have := ih hxs
    simp only [cstr] at this ⊢
    rw [List.cons_append, List.takeWhile_cons, hd, if_pos rfl, this]

theorem rxByte_data (b : Char) (r : Rx) (hb : b ≠ '\r' ∧ b ≠ '\n')
    (harm : r.rx_at = r.uart_idx) (hlen : r.uart_buf.length = UART_BUF_SIZE)
    (hi : r.uart_idx + 1 < UART_BUF_SIZE) :
    rxByte b r = { r with uart_buf := r.uart_buf.set r.uart_idx b,
                          uart_idx := r.uart_idx + 1, rx_at := r.uart_idx + 1 } := by
  have hlt : r.uart_idx < r.uart_buf.length := by rw [hlen]; omega
  have hget : (r.uart_buf.set r.uart_idx b).getD r.uart_idx (Char.ofNat 0) = b := by
    simp [List.getD_eq_getElem?_getD, hlt]
  have hc : (decide (b = '\r') || decide (b = '\n')) = false := by
    simp [hb.1, hb.2]
  have hm : (r.uart_idx + 1) % 2 ^ 8 = r.uart_idx + 1 := by
    simp only [UART_BUF_SIZE] at hi; omega
  have hn : ¬ (r.uart_idx + 1 ≥ UART_BUF_SIZE) := by omega
  simp only [rxByte, HAL_UART_RxCpltCallback, harm, hget, hc, hm, hn, if_true, if_false]
  simp

theorem rxByte_terminator (t : Char) (r : Rx) (ht : t = '\r' ∨ t = '\n')
    (harm : r.rx_at = r.uart_idx) (hlt : r.uart_idx < r.uart_buf.length) :
    rxByte t r = { r with uart_buf := r.uart_buf.set r.uart_idx (Char.ofNat 0),
                          uart_ready := 1, uart_idx := 0, rx_at := 0 } := by
  have hget : (r.uart_buf.set r.uart_idx t).getD r.uart_idx (Char.ofNat 0) = t := by
    simp [List.getD_eq_getElem?_getD, hlt]
  have hc : (decide (t = '\r') || decide (t = '\n')) = true := by
    simpa using ht
  simp only [rxByte, HAL_UART_RxCpltCallback, harm, hget, hc, if_true]
  simp

theorem rxBytes_append (s t : List Char) (r : Rx) :
    rxBytes (s ++ t) r = rxBytes t (rxBytes s r) := by
  induction s generalizing r with
  | nil => rfl
  | cons b bs ih =>
    rw [List.cons_append]
    simp only [rxBytes]
    exact ih (rxByte b r)

theorem rxBytes_data (s : List Char) (r : Rx)
    (hs : ∀ c ∈ s, c ≠ '\r' ∧ c ≠ '\n')
    (harm : r.rx_at = r.uart_idx) (hlen : r.uart_buf.length = UART_BUF_SIZE)
    (hi : r.uart_idx + s.length < UART_BUF_SIZE) :
    (rxBytes s r).uart_idx = r.uart_idx + s.length ∧
    (rxBytes s r).rx_at = r.uart_idx + s.length ∧
    (rxBytes s r).uart_ready = r.uart_ready ∧
    (rxBytes s r).uart_buf.length = UART_BUF_SIZE ∧
    (rxBytes s r).uart_buf.take (r.uart_idx + s.length) = r.uart_buf.take r.uart_idx ++ s := by
  induction s generalizing r with
  | nil => simp [rxBytes, harm, hlen]
  | cons b bs ih =>
    have hb := hs b (List.mem_cons_self _ _)
    have hbs : ∀ c ∈ bs, c ≠ '\r' ∧ c ≠ '\n' := fun c hc => hs c (List.mem_cons_of_mem _ hc)
    have hi1 : r.uart_idx + 1 < UART_BUF_SIZE := by
      simp only [List.length_cons] at hi; omega
    have hlt : r.uart_idx < r.uart_buf.length := by rw [hlen]; omega
    have hstep := rxByte_data b r hb harm hlen hi1
    have h := ih (rxByte b r) hbs (by rw [hstep]) (by rw [hstep]; simp [hlen])
      (by rw [hstep]; simp only [List.length_cons] at hi; simp only; omega)
    rw [hstep] at h
    simp only at h
    obtain ⟨h1, h2, h3, h4, h5⟩ := h
    have hidx : r.uart_idx + (b :: bs).length = r.uart_idx + 1 + bs.length := by
      simp only [List.length_cons]; omega
    simp only [rxBytes]
    rw [hstep, hidx]
    refine ⟨h1, h2, h3, h4, ?_⟩
    rw [h5, take_succ_set _ _ _ hlt]
    simp

/-! ## Output and driver calls of the PWM functions -/

theorem printf_tx (t : List Char) (w : Sys) : (printf t w).tx = w.tx ++ t := rfl

theorem printf_ops (t : List Char) (w : Sys) : (printf t w).ops = w.ops := rfl

theorem hal_tx (o : HalOp) (w : Sys) : (hal o w).tx = w.tx := rfl

theorem hal_ops (o : HalOp) (w : Sys) : (hal o w).ops = w.ops ++ [o] := rfl

theorem hal_ctl (o : HalOp) (w : Sys) :
    (hal o w).ctl = { w.ctl with htim1 := o.apply w.ctl.htim1 } := rfl

theorem PWM_Start_ops (w : Sys) : (PWM_Start w).ops = w.ops ++ startOps := by
  simp [PWM_Start, hal, printf, startOps]

theorem PWM_Stop_ops (w : Sys) : (PWM_Stop w).ops = w.ops ++ stopOps := by
  simp [PWM_Stop, hal, printf, stopOps]

theorem PWM_SetFreq_ok_tx (clk f : Nat) (w : Sys) (hlo : 1000 ≤ f) (hhi : f ≤ 50000) :
    (PWM_SetFreq clk f w).tx =
      w.tx ++ "PWM STOP\r\n".toList ++ "PWM START\r\n".toList
        ++ ("FREQ ".toList ++ dec f ++ " Hz\r\n".toList) := by
  have hc : (decide (f < 1000) || decide (f > 50000)) = false := by
    simp only [Bool.or_eq_false_iff, decide_eq_false_iff_not]
    omega
  simp only [PWM_SetFreq, hc, Bool.false_eq_true, if_false, printf]
  rw [PWM_Start_tx, PWM_SetDuty_tx, hal_tx, PWM_Stop_tx]

theorem PWM_SetFreq_ok_ops (clk f : Nat) (w : Sys) (hlo : 1000 ≤ f) (hhi : f ≤ 50000) :
    (PWM_SetFreq clk f w).ops =
      w.ops ++ stopOps
        ++ [.setAutoreload ((clk / f + 2 ^ 32 - 1) % 2 ^ 32),
            .setCompare .ch1
              (((clk / f + 2 ^ 32 - 1) % 2 ^ 32 * min w.ctl.duty_now 100) % 2 ^ 32 / 100),
            .setCompare .ch2
              (((clk / f + 2 ^ 32 - 1) % 2 ^ 32 * min w.ctl.duty_now 100) % 2 ^ 32 / 100),
            .setCompare .ch3
              (((clk / f + 2 ^ 32 - 1) % 2 ^ 32 * min w.ctl.duty_now 100) % 2 ^ 32 / 100)]
        ++ startOps := by
  have hc : (decide (f < 1000) || decide (f > 50000)) = false := by
    simp only [Bool.or_eq_false_iff, decide_eq_false_iff_not]
    omega
  have hd : (hal (.setAutoreload ((clk / f + 2 ^ 32 - 1) % 2 ^ 32)) (PWM_Stop w)).ctl.duty_now
      = w.ctl.duty_now := by
    rw [hal_ctl, PWM_Stop_ctl]
  have hp : (hal (.setAutoreload ((clk / f + 2 ^ 32 - 1) % 2 ^ 32)) (PWM_Stop w)).ctl.htim1.period
      = (clk / f + 2 ^ 32 - 1) % 2 ^ 32 := by
    rw [hal_ctl]
    rfl
  simp only [PWM_SetFreq, hc, Bool.false_eq_true, if_false, printf]
  rw [PWM_Start_ops, PWM_SetDuty_ops, hal_ops, PWM_Stop_ops, hd, hp]
  simp only [List.append_assoc, List.singleton_append, List.cons_append, List.nil_append]

theorem writesWhileOff_freq_change (t : Tim) (arr v : Nat) :
    writesWhileOff t
      (stopOps ++ [.setAutoreload arr, .setCompare .ch1 v, .setCompare .ch2 v,
                   .setCompare .ch3 v] ++ startOps) = true := by
  simp [writesWhileOff, stopOps, startOps, HalOp.apply, HalOp.writesReg, Tim.moeAfterStop,
    Tim.outputsOff]

theorem pulse_le_period (p d : Nat) (hd : d ≤ 100) : (p * d) % 2 ^ 32 / 100 ≤ p := by
  have hle : p * d ≤ p * 100 := Nat.mul_le_mul_left _ hd
  generalize p * d = x at hle
  omega

/-! ## Invariants of the PWM state -/

theorem PWM_SetFreq_bad_eq (clk f : Nat) (w : Sys) (h : f < 1000 ∨ 50000 < f) :
    PWM_SetFreq clk f w = printf "FREQ ERR\r\n".toList w := by
  have hc : (decide (f < 1000) || decide (f > 50000)) = true := by
    simpa using h
  simp only [PWM_SetFreq, hc, if_true]

theorem UART_Process_ctl_cases (clk : Nat) (cmd : List Char) (w : Sys) :
    (∃ t, t ≤ 100 ∧ (UART_Process clk cmd w).ctl = { w.ctl with duty_target := t }) ∨
    (∃ f, UART_Process clk cmd w = PWM_SetFreq clk f w) ∨
    UART_Process clk cmd w = PWM_Start w ∨
    UART_Process clk cmd w = PWM_Stop w ∨
    (UART_Process clk cmd w).ctl = w.ctl := by
  unfold UART_Process
  split
  · left
    refine ⟨if toU8 (atoi (cmd.drop 4)) > 100 then 100 else toU8 (atoi (cmd.drop 4)), ?_, ?_⟩
    · split <;> omega
    · simp [printf]
  · split
    · right; left
      exact ⟨_, rfl⟩
    · split
      · right; right; left; rfl
      · split
        · right; right; right; left; rfl
        · right; right; right; right
          split <;> simp [printf]

theorem PWM_SetFreq_ctl_cases (clk f : Nat) (w : Sys) :
    (PWM_SetFreq clk f w).ctl = w.ctl ∨
    (1000 ≤ f ∧ f ≤ 50000 ∧
      (PWM_SetFreq clk f w).ctl =
        { duty_now := min w.ctl.duty_now 100,
          duty_target := w.ctl.duty_target,
          pwm_enabled := 1,
          pwm_freq := f,
          htim1 :=
            { period := (clk / f + 2 ^ 32 - 1) % 2 ^ 32,
              ccr1 := ((clk / f + 2 ^ 32 - 1) % 2 ^ 32 * min w.ctl.duty_now 100) % 2 ^ 32 / 100,
              ccr2 := ((clk / f + 2 ^ 32 - 1) % 2 ^ 32 * min w.ctl.duty_now 100) % 2 ^ 32 / 100,
              ccr3 := ((clk / f + 2 ^ 32 - 1) % 2 ^ 32 * min w.ctl.duty_now 100) % 2 ^ 32 / 100,
              oc1 := true, oc2 := true, oc3 := true,
              ocn1 := true, ocn2 := true, ocn3 := true, moe := true } }) := by
  by_cases h : f < 1000 ∨ 50000 < f
  · left
    rw [PWM_SetFreq_bad_eq clk f w h]
    rfl
  · right
    have hlo : 1000 ≤ f := by omega
    have hhi : f ≤ 50000 := by omega
    exact ⟨hlo, hhi, PWM_SetFreq_ok_ctl clk f w hlo hhi⟩

theorem rampStep_cases (w : Sys) :
    rampStep w = w ∨ ∃ d, rampStep w = PWM_SetDuty d w := by
  unfold rampStep
  split
  · right; exact ⟨_, rfl⟩
  · split
    · right; exact ⟨_, rfl⟩
    · left; rfl

theorem RangeInv_of_ctl (w w' : Sys) (h : RangeInv w) (hc : w'.ctl = w.ctl) : RangeInv w' := by
  unfold RangeInv at *
  rw [hc]
  exact h

theorem RangeInv_UART_Process (clk : Nat) (cmd : List Char) (w : Sys) (h : RangeInv w) :
    RangeInv (UART_Process clk cmd w) := by
  rcases UART_Process_ctl_cases clk cmd w with ⟨t, ht, hc⟩ | ⟨f, hf⟩ | hs | hs | hc
  · unfold RangeInv at *
    rw [hc]
    exact ⟨h.1, ht, h.2.2.1, h.2.2.2⟩
  · rw [hf]
    rcases PWM_SetFreq_ctl_cases clk f w with hc | ⟨hlo, hhi, hc⟩
    · exact RangeInv_of_ctl w _ h hc
    · unfold RangeInv at *
      rw [hc]
      exact ⟨Nat.min_le_right _ _, h.2.1, hlo, hhi⟩
  · rw [hs]
    unfold RangeInv at *
    rw [PWM_Start_ctl]
    exact h
  · rw [hs]
    unfold RangeInv at *
    rw [PWM_Stop_ctl]
    exact h
  · exact RangeInv_of_ctl w _ h hc

theorem RangeInv_rampStep (w : Sys) (h : RangeInv w) : RangeInv (rampStep w) := by
  rcases rampStep_cases w with hs | ⟨d, hs⟩
  · rw [hs]; exact h
  · rw [hs]
    unfold RangeInv at *
    rw [PWM_SetDuty_ctl]
    exact ⟨Nat.min_le_right _ _, h.2.1, h.2.2.1, h.2.2.2⟩

theorem RangeInv_run (clk : Nat) (evs : List Event) (w : Sys) (h : RangeInv w) :
    RangeInv (run clk evs w) := by
  induction evs generalizing w with
  | nil => exact h
  | cons e es ih =>
    cases e with
    | line cmd => exact ih _ (RangeInv_UART_Process clk cmd w h)
    | ramp => exact ih _ (RangeInv_rampStep w h)

theorem RangeInv_boot (clk : Nat) : RangeInv (initSys clk) ∧ RangeInv (boot clk) := by
  constructor
  · simp [RangeInv, initSys, PWM_DEFAULT_FREQ]
  · simp [RangeInv, boot, printf, PWM_Start_ctl, PWM_SetDuty_ctl, initSys, PWM_DEFAULT_FREQ]

theorem CompareInv_of_ctl (w w' : Sys) (h : CompareInv w) (hc : w'.ctl = w.ctl) :
    CompareInv w' := by
  unfold CompareInv at *
  rw [hc]
  exact h

theorem CompareInv_PWM_SetDuty (d : Nat) (w : Sys) (hp : w.ctl.htim1.period * 100 < 2 ^ 32) :
    CompareInv (PWM_SetDuty d w) := by
  have hle : w.ctl.htim1.period * min d 100 ≤ w.ctl.htim1.period * 100 :=
    Nat.mul_le_mul_left _ (Nat.min_le_right _ _)
  have hv : (w.ctl.htim1.period * min d 100) % 2 ^ 32 / 100
      = min d 100 * w.ctl.htim1.period / 100 := by
    rw [Nat.mod_eq_of_lt (lt_of_le_of_lt hle hp), Nat.mul_comm]
  unfold CompareInv
  rw [PWM_SetDuty_ctl, hv]
  exact ⟨rfl, rfl, rfl, Nat.min_le_right _ _, hp⟩

theorem CompareInv_PWM_SetFreq (clk f : Nat) (w : Sys) (h : CompareInv w)
    (hclk : 50000 ≤ clk) (h32 : clk < 2 ^ 32) : CompareInv (PWM_SetFreq clk f w) := by
  rcases PWM_SetFreq_ctl_cases clk f w with hc | ⟨hlo, hhi, hc⟩
  · exact CompareInv_of_ctl w _ h hc
  · obtain ⟨ha, hb⟩ := arr_no_wrap clk f hlo (by omega) h32
    have hle : (clk / f - 1) * min w.ctl.duty_now 100 ≤ (clk / f - 1) * 100 :=
      Nat.mul_le_mul_left _ (Nat.min_le_right _ _)
    rw [ha, Nat.mod_eq_of_lt (lt_of_le_of_lt hle hb)] at hc
    unfold CompareInv
    rw [hc]
    simp only
    rw [Nat.mul_comm (clk / f - 1) (min w.ctl.duty_now 100)]
    exact ⟨rfl, rfl, rfl, Nat.min_le_right _ _, hb⟩

theorem CompareInv_UART_Process (clk : Nat) (cmd : List Char) (w : Sys) (h : CompareInv w)
    (hclk : 50000 ≤ clk) (h32 : clk < 2 ^ 32) : CompareInv (UART_Process clk cmd w) := by
  rcases UART_Process_ctl_cases clk cmd w with ⟨t, _, hc⟩ | ⟨f, hf⟩ | hs | hs | hc
  · unfold CompareInv at *
    rw [hc]
    exact h
  · rw [hf]
    exact CompareInv_PWM_SetFreq clk f w h hclk h32
  · rw [hs]
    unfold CompareInv at *
    rw [PWM_Start_ctl]
    exact h
  · rw [hs]
    unfold CompareInv at *
    rw [PWM_Stop_ctl]
    exact h
  · exact CompareInv_of_ctl w _ h hc

theorem CompareInv_rampStep (w : Sys) (h : CompareInv w) : CompareInv (rampStep w) := by
  rcases rampStep_cases w with hs | ⟨d, hs⟩
  · rw [hs]; exact h
  · rw [hs]
    exact CompareInv_PWM_SetDuty d w h.2.2.2.2

theorem CompareInv_run (clk : Nat) (evs : List Event) (w : Sys) (h : CompareInv w)
    (hclk : 50000 ≤ clk) (h32 : clk < 2 ^ 32) : CompareInv (run clk evs w) := by
  induction evs generalizing w with
  | nil => exact h
  | cons e es ih =>
    cases e with
    | line cmd => exact ih _ (CompareInv_UART_Process clk cmd w h hclk h32)
    | ramp => exact ih _ (CompareInv_rampStep w h)

theorem CompareInv_boot (clk : Nat) (hclk : 50000 ≤ clk) (h32 : clk < 2 ^ 32) :
    CompareInv (boot clk) := by
  have hP : (clk / 20000 + 2 ^ 32 - 1) % 2 ^ 32 = clk / 20000 - 1 := by omega
  have hm : min 50 100 = 50 := by decide
  unfold CompareInv
  simp only [boot, printf, PWM_Start_ctl, PWM_SetDuty_ctl, initSys, MX_TIM1_Init,
    PWM_DEFAULT_FREQ, hP, hm]
  refine ⟨?_, ?_, ?_, ?_, ?_⟩ <;> omega

/-! ## Invariant of the receive channel and wrap-around -/

theorem RxInv_callback (u : Bool) (r : Rx) (hr : RxInv r) :
    RxInv (HAL_UART_RxCpltCallback u r) := by
  obtain ⟨h1, h2, h3⟩ := hr
  unfold HAL_UART_RxCpltCallback
  cases u with
  | false => exact ⟨h1, h2, h3⟩
  | true =>
    simp only [if_true]
    split
    · refine ⟨?_, rfl, ?_⟩
      · simp [UART_BUF_SIZE]
      · simp [h3]
    · refine ⟨?_, rfl, h3⟩
      simp only [UART_BUF_SIZE] at h1 ⊢
      split <;> omega

theorem RxInv_rxByte (b : Char) (r : Rx) (hr : RxInv r) : RxInv (rxByte b r) := by
  unfold rxByte
  apply RxInv_callback
  obtain ⟨h1, h2, h3⟩ := hr
  exact ⟨h1, h2, by simp [h3]⟩

theorem RxInv_rxBytes (bs : List Char) (r : Rx) (hr : RxInv r) : RxInv (rxBytes bs r) := by
  induction bs generalizing r with
  | nil => exact hr
  | cons b bs ih => exact ih _ (RxInv_rxByte b r hr)

theorem rxByte_data_wrap (b : Char) (r : Rx) (hb : b ≠ '\r' ∧ b ≠ '\n') (hr : RxInv r) :
    rxByte b r = { r with uart_buf := r.uart_buf.set r.uart_idx b,
                          uart_idx := (r.uart_idx + 1) % UART_BUF_SIZE,
                          rx_at := (r.uart_idx + 1) % UART_BUF_SIZE } := by
  obtain ⟨h1, h2, h3⟩ := hr
  by_cases hi : r.uart_idx + 1 < UART_BUF_SIZE
  · rw [rxByte_data b r hb h2 h3 hi, Nat.mod_eq_of_lt hi]
  · have h63 : r.uart_idx = 63 := by simp only [UART_BUF_SIZE] at h1 hi; omega
    have hlt : r.uart_idx < r.uart_buf.length := by rw [h3]; exact h1
    have hget : (r.uart_buf.set r.uart_idx b).getD r.uart_idx (Char.ofNat 0) = b := by
      simp [List.getD_eq_getElem?_getD, hlt]
    have hc : (decide (b = '\r') || decide (b = '\n')) = false := by
      simp [hb.1, hb.2]
    simp only [rxByte, HAL_UART_RxCpltCallback, h2, hget, hc, if_true]
    simp [h63, UART_BUF_SIZE]

theorem rxBytes_wrap (s : List Char) (r : Rx)
    (hs : ∀ c ∈ s, c ≠ '\r' ∧ c ≠ '\n') (hr : RxInv r) (hidx : r.uart_idx = 0) :
    (rxBytes s r).uart_idx = s.length % UART_BUF_SIZE ∧
    (rxBytes s r).uart_ready = r.uart_ready ∧
    (rxBytes s r).uart_buf.take (s.length % UART_BUF_SIZE)
      = s.drop (s.length - s.length % UART_BUF_SIZE) := by
  induction s using List.reverseRecOn with
  | nil => simp [rxBytes, hidx, UART_BUF_SIZE]
  | append_singleton l a ih =>
    have hl : ∀ c ∈ l, c ≠ '\r' ∧ c ≠ '\n' := fun c hc => hs c (List.mem_append_left _ hc)
    have ha : a ≠ '\r' ∧ a ≠ '\n' := hs a (by simp)
    obtain ⟨h1, h2, h3⟩ := ih hl
    have hinv := RxInv_rxBytes l r hr
    have hstep := rxByte_data_wrap a (rxBytes l r) ha hinv
    have hfin : rxBytes (l ++ [a]) r = rxByte a (rxBytes l r) := by
      rw [rxBytes_append]; rfl
    have hlt : (rxBytes l r).uart_idx < (rxBytes l r).uart_buf.length := by
      rw [hinv.2.2]; exact hinv.1
    rw [hfin, hstep]
    simp only [List.length_append, List.length_singleton]
    rw [h1]
    simp only [UART_BUF_SIZE] at h1 h3 hlt ⊢
    refine ⟨by omega, h2, ?_⟩
    by_cases hk : l.length % 64 = 63
    · have e1 : (l.length + 1) % 64 = 0 := by omega
      rw [e1]
      simp
    · have e1 : (l.length + 1) % 64 = l.length % 64 + 1 := by omega
      have e2 : l.length + 1 - (l.length % 64 + 1) = l.length - l.length % 64 := by omega
      have e3 : l.length - l.length % 64 ≤ l.length := by omega
      rw [e1, e2, ← h1, take_succ_set _ _ _ hlt, h1, h3, List.drop_append_of_le_length e3]

/-! ## The claims -/

/-- C1, evaluated on the code: `set 300` stores the target 44 and replies
`TARGET 44%`, and `set -1` stores the target 100. Line 195 narrows the value
of `atoi` to `uint8_t` before line 196 compares it with 100, so the stored
target is `min (d mod 256) 100` and not the clamped value of `d`. -/
theorem set_narrows_before_clamp (clk : Nat) (w : Sys) :
    (UART_Process clk "set 300".toList w).ctl.duty_target = 44 ∧
    (UART_Process clk "set 300".toList w).tx = w.tx ++ "TARGET 44%\r\n".toList ∧
    (UART_Process clk "set -1".toList w).ctl.duty_target = 100 ∧
    (UART_Process clk "set 256".toList w).ctl.duty_target = 0 := by
  have e1 : "set 300".toList = "set ".toList ++ "300".toList := by decide
  have e2 : "set -1".toList = "set ".toList ++ "-1".toList := by decide
  have e3 : "set 256".toList = "set ".toList ++ "256".toList := by decide
  have a1 : toU8 (atoi "300".toList) = 44 := by decide
  have a2 : toU8 (atoi "-1".toList) = 255 := by decide
  have a3 : toU8 (atoi "256".toList) = 0 := by decide
  have d2 : dec 44 = ['4', '4'] := by decide
  rw [e1, e2, e3, UART_Process_set, UART_Process_set, UART_Process_set, a1, a2, a3]
  simp [printf, d2]

/-- C2: for every integer `f` in the `int` range that lies outside
`[1000, 50000]`, the line `freq f` prints exactly `FREQ ERR` (with the line
end) and changes nothing: the whole PWM state, timer registers included, is
the same, and no call to the timer driver is issued. -/
theorem freq_out_of_range_rejected (clk : Nat) (f : Int) (w : Sys)
    (hlo : -2147483648 ≤ f) (hhi : f ≤ 2147483647) (hout : f < 1000 ∨ 50000 < f) :
    (UART_Process clk ("freq ".toList ++ intText f) w).tx = w.tx ++ "FREQ ERR\r\n".toList ∧
    (UART_Process clk ("freq ".toList ++ intText f) w).ctl = w.ctl ∧
    (UART_Process clk ("freq ".toList ++ intText f) w).ops = w.ops := by
  have h := toU32_out_of_range f hlo hhi hout
  have hc : (decide (toU32 f < 1000) || decide (toU32 f > 50000)) = true := by
    simpa using h
  rw [UART_Process_freq, atoi_intText]
  simp only [PWM_SetFreq, hc, if_true, printf]
  simp

theorem freq_out_of_range_rejected_witness :
    ((-2147483648 : Int) ≤ 999 ∧ (999 : Int) ≤ 2147483647 ∧ ((999 : Int) < 1000 ∨ (50000 : Int) < 999)) ∧
    ((UART_Process 16000000 ("freq ".toList ++ intText 999) (boot 16000000)).tx
        = (boot 16000000).tx ++ "FREQ ERR\r\n".toList ∧
     (UART_Process 16000000 ("freq ".toList ++ intText 999) (boot 16000000)).ctl
        = (boot 16000000).ctl ∧
     (UART_Process 16000000 ("freq ".toList ++ intText 999) (boot 16000000)).ops
        = (boot 16000000).ops) :=
  ⟨by decide,
   freq_out_of_range_rejected 16000000 999 (boot 16000000) (by decide) (by decide) (by decide)⟩

/-- C3: for every `f` in `[1000, 50000]` and every clock rate `clk` with
`f ≤ clk` (a `uint32_t`), in a state with `duty_now ≤ 100`, the line
`freq f` sets `pwm_freq` to `f` and the period to `clk / f - 1`, keeps
`duty_now` and `duty_target`, writes `duty_now * (clk / f - 1) / 100` to the
three compare registers, and a following `status` prints, after the duty
line, the line `Freq: f Hz`. -/
theorem freq_in_range_applied (clk f : Nat) (w : Sys)
    (hlo : 1000 ≤ f) (hhi : f ≤ 50000) (hclk : f ≤ clk) (h32 : clk < 2 ^ 32)
    (hnow : w.ctl.duty_now ≤ 100) :
    (UART_Process clk ("freq ".toList ++ intText f) w).ctl.pwm_freq = f ∧
    (UART_Process clk ("freq ".toList ++ intText f) w).ctl.htim1.period = clk / f - 1 ∧
    (UART_Process clk ("freq ".toList ++ intText f) w).ctl.duty_now = w.ctl.duty_now ∧
    (UART_Process clk ("freq ".toList ++ intText f) w).ctl.duty_target = w.ctl.duty_target ∧
    (UART_Process clk ("freq ".toList ++ intText f) w).ctl.htim1.ccr1
        = w.ctl.duty_now * (clk / f - 1) / 100 ∧
    (UART_Process clk ("freq ".toList ++ intText f) w).ctl.htim1.ccr2
        = w.ctl.duty_now * (clk / f - 1) / 100 ∧
    (UART_Process clk ("freq ".toList ++ intText f) w).ctl.htim1.ccr3
        = w.ctl.duty_now * (clk / f - 1) / 100 ∧
    (UART_Process clk "status".toList
        (UART_Process clk ("freq ".toList ++ intText f) w)).tx
      = (UART_Process clk ("freq ".toList ++ intText f) w).tx
          ++ ("Duty: ".toList ++ dec w.ctl.duty_now ++ "% -> ".toList
                ++ dec w.ctl.duty_target ++ "%\r\n".toList)
          ++ ("Freq: ".toList ++ dec f ++ " Hz\r\n".toList)
          ++ "State: ON\r\n".toList := by
  obtain ⟨ha, hb⟩ := arr_no_wrap clk f hlo hclk h32
  have hmin : min w.ctl.duty_now 100 = w.ctl.duty_now := Nat.min_eq_left hnow
  have hmul : (clk / f - 1) * w.ctl.duty_now % 2 ^ 32 / 100
      = w.ctl.duty_now * (clk / f - 1) / 100 := by
    have hle : (clk / f - 1) * w.ctl.duty_now ≤ (clk / f - 1) * 100 :=
      Nat.mul_le_mul_left _ hnow
    rw [Nat.mod_eq_of_lt (lt_of_le_of_lt hle hb), Nat.mul_comm]
  have hf32 : f < 4294967296 := by omega
  have hctl := PWM_SetFreq_ok_ctl clk f w hlo hhi
  rw [ha, hmin, hmul] at hctl
  rw [UART_Process_status, UART_Process_freq, atoi_intText, toU32_of_small f hf32, hctl]
  refine ⟨rfl, rfl, rfl, rfl, rfl, rfl, rfl, ?_⟩
  simp

theorem freq_in_range_applied_witness :
    ((1000 : Nat) ≤ 10000 ∧ (10000 : Nat) ≤ 50000 ∧ (10000 : Nat) ≤ 16000000 ∧
      (16000000 : Nat) < 2 ^ 32 ∧ (boot 16000000).ctl.duty_now ≤ 100) ∧
    ((UART_Process 16000000 ("freq ".toList ++ intText (10000 : Nat)) (boot 16000000)).ctl.pwm_freq
        = 10000 ∧
     (UART_Process 16000000 ("freq ".toList ++ intText (10000 : Nat))
        (boot 16000000)).ctl.htim1.period = 16000000 / 10000 - 1 ∧
     (UART_Process 16000000 ("freq ".toList ++ intText (10000 : Nat)) (boot 16000000)).ctl.duty_now
        = (boot 16000000).ctl.duty_now ∧
     (UART_Process 16000000 ("freq ".toList ++ intText (10000 : Nat))
        (boot 16000000)).ctl.duty_target = (boot 16000000).ctl.duty_target ∧
     (UART_Process 16000000 ("freq ".toList ++ intText (10000 : Nat))
        (boot 16000000)).ctl.htim1.ccr1
        = (boot 16000000).ctl.duty_now * (16000000 / 10000 - 1) / 100 ∧
     (UART_Process 16000000 ("freq ".toList ++ intText (10000 : Nat))
        (boot 16000000)).ctl.htim1.ccr2
        = (boot 16000000).ctl.duty_now * (16000000 / 10000 - 1) / 100 ∧
     (UART_Process 16000000 ("freq ".toList ++ intText (10000 : Nat))
        (boot 16000000)).ctl.htim1.ccr3
        = (boot 16000000).ctl.duty_now * (16000000 / 10000 - 1) / 100 ∧
     (UART_Process 16000000 "status".toList
        (UART_Process 16000000 ("freq ".toList ++ intText (10000 : Nat)) (boot 16000000))).tx
      = (UART_Process 16000000 ("freq ".toList ++ intText (10000 : Nat)) (boot 16000000)).tx
          ++ ("Duty: ".toList ++ dec (boot 16000000).ctl.duty_now ++ "% -> ".toList
                ++ dec (boot 16000000).ctl.duty_target ++ "%\r\n".toList)
          ++ ("Freq: ".toList ++ dec 10000 ++ " Hz\r\n".toList)
          ++ "State: ON\r\n".toList) :=
  ⟨by decide,
   freq_in_range_applied 16000000 10000 (boot 16000000)
     (by decide) (by decide) (by decide) (by decide) (by decide)⟩

/-- C4: for every `d` in `[0, 100]` and every state with `duty_now ≤ 100`,
after the line `set d` and `n` ramp steps with `n ≥ |d - duty_now|` (the
value before the command), `duty_now` equals `d`, and it still equals `d`
after any number of further ramp steps. -/
theorem set_then_ramp_reaches_target (clk d n : Nat) (w : Sys)
    (hd : d ≤ 100) (hnow : w.ctl.duty_now ≤ 100)
    (hn : Int.natAbs ((d : Int) - w.ctl.duty_now) ≤ n) :
    (rampSteps n (UART_Process clk ("set ".toList ++ intText d) w)).ctl.duty_now = d ∧
    ∀ k : Nat,
      (rampSteps k (rampSteps n (UART_Process clk ("set ".toList ++ intText d) w))).ctl.duty_now
        = d := by
  obtain ⟨ht, hn0⟩ := set_target_small clk d w hd
  have hr := rampSteps_reaches n (UART_Process clk ("set ".toList ++ intText d) w)
    (by rw [hn0]; exact hnow) (by rw [ht]; exact hd) (by rw [ht, hn0]; exact hn)
  rw [ht] at hr
  refine ⟨hr.1, fun k => ?_⟩
  have hk := rampSteps_reaches k
    (rampSteps n (UART_Process clk ("set ".toList ++ intText d) w))
    (by rw [hr.1]; exact hd) (by rw [hr.2]; exact hd) (by rw [hr.1, hr.2]; simp)
  rw [hr.2] at hk
  exact hk.1

theorem set_then_ramp_reaches_target_witness :
    ((80 : Nat) ≤ 100 ∧ (boot 16000000).ctl.duty_now ≤ 100 ∧
      Int.natAbs (((80 : Nat) : Int) - (boot 16000000).ctl.duty_now) ≤ 30) ∧
    ((rampSteps 30 (UART_Process 16000000 ("set ".toList ++ intText (80 : Nat))
        (boot 16000000))).ctl.duty_now = 80 ∧
     ∀ k : Nat,
      (rampSteps k (rampSteps 30 (UART_Process 16000000 ("set ".toList ++ intText (80 : Nat))
        (boot 16000000)))).ctl.duty_now = 80) :=
  ⟨by decide,
   set_then_ramp_reaches_target 16000000 80 30 (boot 16000000)
     (by decide) (by decide) (by decide)⟩

/-- C5: in a state with `duty_now ≤ 100` and `duty_target ≤ 100`, one ramp
step adds exactly 1 to `duty_now` when it is below the target, subtracts
exactly 1 when it is above, and changes nothing when they are equal. So the
distance `|duty_target - duty_now|` drops by exactly 1 while it is not 0,
`duty_now` never passes the target, and `duty_target`, `pwm_freq` and
`pwm_enabled` are unchanged. -/
theorem ramp_step_moves_one_toward_target (w : Sys)
    (hnow : w.ctl.duty_now ≤ 100) (htgt : w.ctl.duty_target ≤ 100) :
    (w.ctl.duty_now < w.ctl.duty_target →
      (rampStep w).ctl.duty_now = w.ctl.duty_now + 1 ∧
      (rampStep w).ctl.duty_now ≤ w.ctl.duty_target) ∧
    (w.ctl.duty_target < w.ctl.duty_now →
      (rampStep w).ctl.duty_now + 1 = w.ctl.duty_now ∧
      w.ctl.duty_target ≤ (rampStep w).ctl.duty_now) ∧
    (w.ctl.duty_now = w.ctl.duty_target → rampStep w = w) ∧
    (w.ctl.duty_now ≠ w.ctl.duty_target →
      Int.natAbs (((rampStep w).ctl.duty_target : Int) - (rampStep w).ctl.duty_now) + 1
        = Int.natAbs ((w.ctl.duty_target : Int) - w.ctl.duty_now)) ∧
    (rampStep w).ctl.duty_target = w.ctl.duty_target ∧
    (rampStep w).ctl.pwm_freq = w.ctl.pwm_freq ∧
    (rampStep w).ctl.pwm_enabled = w.ctl.pwm_enabled := by
  obtain ⟨h1, h2, h3, h4⟩ := rampStep_ctl w hnow htgt
  refine ⟨?_, ?_, ?_, ?_, h2, h3, h4⟩
  · intro hlt
    rw [h1, if_pos hlt]
    exact ⟨rfl, hlt⟩
  · intro hgt
    have hnlt : ¬ w.ctl.duty_now < w.ctl.duty_target := by omega
    rw [h1, if_neg hnlt, if_pos hgt]
    omega
  · intro heq
    have hnlt : ¬ w.ctl.duty_now < w.ctl.duty_target := by omega
    have hngt : ¬ w.ctl.duty_now > w.ctl.duty_target := by omega
    simp only [rampStep, hnlt, hngt, if_false]
  · intro hne
    rw [h1, h2]
    split
    · omega
    · split <;> omega

theorem ramp_step_moves_one_toward_target_witness :
    (sampleRamping.ctl.duty_now ≤ 100 ∧ sampleRamping.ctl.duty_target ≤ 100) ∧
    ((sampleRamping.ctl.duty_now < sampleRamping.ctl.duty_target →
      (rampStep sampleRamping).ctl.duty_now = sampleRamping.ctl.duty_now + 1 ∧
      (rampStep sampleRamping).ctl.duty_now ≤ sampleRamping.ctl.duty_target) ∧
    (sampleRamping.ctl.duty_target < sampleRamping.ctl.duty_now →
      (rampStep sampleRamping).ctl.duty_now + 1 = sampleRamping.ctl.duty_now ∧
      sampleRamping.ctl.duty_target ≤ (rampStep sampleRamping).ctl.duty_now) ∧
    (sampleRamping.ctl.duty_now = sampleRamping.ctl.duty_target →
      rampStep sampleRamping = sampleRamping) ∧
    (sampleRamping.ctl.duty_now ≠ sampleRamping.ctl.duty_target →
      Int.natAbs (((rampStep sampleRamping).ctl.duty_target : Int)
          - (rampStep sampleRamping).ctl.duty_now) + 1
        = Int.natAbs ((sampleRamping.ctl.duty_target : Int) - sampleRamping.ctl.duty_now)) ∧
    (rampStep sampleRamping).ctl.duty_target = sampleRamping.ctl.duty_target ∧
    (rampStep sampleRamping).ctl.pwm_freq = sampleRamping.ctl.pwm_freq ∧
    (rampStep sampleRamping).ctl.pwm_enabled = sampleRamping.ctl.pwm_enabled) :=
  ⟨by decide, ramp_step_moves_one_toward_target sampleRamping (by decide) (by decide)⟩

/-- C6: every line that does not begin with `set ` or `freq ` and is not
exactly `start`, `stop` or `status` prints exactly `CMD ERR` (with the line
end), leaves the whole PWM state unchanged and issues no timer driver
call. -/
theorem unknown_command_rejected (clk : Nat) (cmd : List Char) (w : Sys)
    (hset : ¬ "set ".toList <+: cmd) (hfreq : ¬ "freq ".toList <+: cmd)
    (hstart : cmd ≠ "start".toList) (hstop : cmd ≠ "stop".toList)
    (hstatus : cmd ≠ "status".toList) :
    (UART_Process clk cmd w).tx = w.tx ++ "CMD ERR\r\n".toList ∧
    (UART_Process clk cmd w).ctl = w.ctl ∧
    (UART_Process clk cmd w).ops = w.ops := by
  rw [UART_Process_unknown clk cmd w hset hfreq hstart hstop hstatus]
  exact ⟨rfl, rfl, rfl⟩

theorem unknown_command_rejected_witness :
    (¬ "set ".toList <+: "foo".toList ∧ ¬ "freq ".toList <+: "foo".toList ∧
      "foo".toList ≠ "start".toList ∧ "foo".toList ≠ "stop".toList ∧
      "foo".toList ≠ "status".toList) ∧
    ((UART_Process 16000000 "foo".toList (boot 16000000)).tx
        = (boot 16000000).tx ++ "CMD ERR\r\n".toList ∧
     (UART_Process 16000000 "foo".toList (boot 16000000)).ctl = (boot 16000000).ctl ∧
     (UART_Process 16000000 "foo".toList (boot 16000000)).ops = (boot 16000000).ops) ∧
    (UART_Process 16000000 "".toList (boot 16000000)).tx
        = (boot 16000000).tx ++ "CMD ERR\r\n".toList ∧
    (UART_Process 16000000 "START".toList (boot 16000000)).tx
        = (boot 16000000).tx ++ "CMD ERR\r\n".toList ∧
    (UART_Process 16000000 "start ".toList (boot 16000000)).tx
        = (boot 16000000).tx ++ "CMD ERR\r\n".toList ∧
    (UART_Process 16000000 "set".toList (boot 16000000)).tx
        = (boot 16000000).tx ++ "CMD ERR\r\n".toList :=
  ⟨by decide,
   unknown_command_rejected 16000000 "foo".toList (boot 16000000)
     (by decide) (by decide) (by decide) (by decide) (by decide),
   (unknown_command_rejected 16000000 "".toList (boot 16000000)
     (by decide) (by decide) (by decide) (by decide) (by decide)).1,
   (unknown_command_rejected 16000000 "START".toList (boot 16000000)
     (by decide) (by decide) (by decide) (by decide) (by decide)).1,
   (unknown_command_rejected 16000000 "start ".toList (boot 16000000)
     (by decide) (by decide) (by decide) (by decide) (by decide)).1,
   (unknown_command_rejected 16000000 "set".toList (boot 16000000)
     (by decide) (by decide) (by decide) (by decide) (by decide)).1⟩

/-- C7: for every clock rate, the state reached by the boot sequence has
`duty_now = duty_target = 50`, `pwm_freq = 20000` and `pwm_enabled` set; the
line `status` then prints `Duty: 50% -> 50%`, `Freq: 20000 Hz`, `State: ON`,
in that order, and changes neither the PWM state nor the timer. -/
theorem boot_then_status (clk : Nat) :
    (boot clk).ctl.duty_now = 50 ∧ (boot clk).ctl.duty_target = 50 ∧
    (boot clk).ctl.pwm_freq = 20000 ∧ (boot clk).ctl.pwm_enabled = 1 ∧
    (UART_Process clk "status".toList (boot clk)).tx =
      (boot clk).tx ++ "Duty: 50% -> 50%\r\nFreq: 20000 Hz\r\nState: ON\r\n".toList ∧
    (UART_Process clk "status".toList (boot clk)).ctl = (boot clk).ctl ∧
    (UART_Process clk "status".toList (boot clk)).ops = (boot clk).ops := by
  have hc : (boot clk).ctl.duty_now = 50 ∧ (boot clk).ctl.duty_target = 50 ∧
      (boot clk).ctl.pwm_freq = 20000 ∧ (boot clk).ctl.pwm_enabled = 1 := by
    simp [boot, printf, PWM_Start_ctl, PWM_SetDuty_ctl, initSys, PWM_DEFAULT_FREQ]
  obtain ⟨h1, h2, h3, h4⟩ := hc
  refine ⟨h1, h2, h3, h4, ?_, ?_, ?_⟩
  · rw [UART_Process_status, h1, h2, h3, h4]
    have d50 : dec 50 = ['5', '0'] := by decide
    have d20000 : dec 20000 = ['2', '0', '0', '0', '0'] := by decide
    simp [d50, d20000]
  · rw [UART_Process_status]
  · rw [UART_Process_status]

/-- C8: `PWM_Start` and `PWM_Stop` are idempotent on the state. After one or
two `PWM_Start` calls the state is the same, with `pwm_enabled` set and all
outputs enabled; after one or two `PWM_Stop` calls the state is the same,
with `pwm_enabled` clear and all outputs disabled. Each call prints only its
confirmation `PWM START` or `PWM STOP`, and neither changes `duty_now`,
`duty_target`, `pwm_freq`, the period or the compare registers. -/
theorem start_stop_idempotent (w : Sys) :
    ((PWM_Start (PWM_Start w)).ctl = (PWM_Start w).ctl ∧
      (PWM_Start w).ctl.pwm_enabled = 1 ∧ (PWM_Start w).ctl.htim1.outputsOn = true) ∧
    ((PWM_Stop (PWM_Stop w)).ctl = (PWM_Stop w).ctl ∧
      (PWM_Stop w).ctl.pwm_enabled = 0 ∧ (PWM_Stop w).ctl.htim1.outputsOff = true) ∧
    ((PWM_Start w).tx = w.tx ++ "PWM START\r\n".toList ∧
      (PWM_Stop w).tx = w.tx ++ "PWM STOP\r\n".toList) ∧
    ((PWM_Start w).ctl.duty_now = w.ctl.duty_now ∧
      (PWM_Start w).ctl.duty_target = w.ctl.duty_target ∧
      (PWM_Start w).ctl.pwm_freq = w.ctl.pwm_freq ∧
      (PWM_Start w).ctl.htim1.period = w.ctl.htim1.period ∧
      (PWM_Start w).ctl.htim1.ccr1 = w.ctl.htim1.ccr1 ∧
      (PWM_Start w).ctl.htim1.ccr2 = w.ctl.htim1.ccr2 ∧
      (PWM_Start w).ctl.htim1.ccr3 = w.ctl.htim1.ccr3) ∧
    ((PWM_Stop w).ctl.duty_now = w.ctl.duty_now ∧
      (PWM_Stop w).ctl.duty_target = w.ctl.duty_target ∧
      (PWM_Stop w).ctl.pwm_freq = w.ctl.pwm_freq ∧
      (PWM_Stop w).ctl.htim1.period = w.ctl.htim1.period ∧
      (PWM_Stop w).ctl.htim1.ccr1 = w.ctl.htim1.ccr1 ∧
      (PWM_Stop w).ctl.htim1.ccr2 = w.ctl.htim1.ccr2 ∧
      (PWM_Stop w).ctl.htim1.ccr3 = w.ctl.htim1.ccr3) := by
  refine ⟨⟨?_, ?_, ?_⟩, ⟨?_, ?_, ?_⟩, ⟨PWM_Start_tx w, PWM_Stop_tx w⟩, ?_, ?_⟩
  · rw [PWM_Start_ctl (PWM_Start w), PWM_Start_ctl w]
  · rw [PWM_Start_ctl]
  · rw [PWM_Start_ctl]; rfl
  · rw [PWM_Stop_ctl (PWM_Stop w), PWM_Stop_ctl w]
  · rw [PWM_Stop_ctl]
  · rw [PWM_Stop_ctl]; rfl
  · rw [PWM_Start_ctl]; exact ⟨rfl, rfl, rfl, rfl, rfl, rfl, rfl⟩
  · rw [PWM_Stop_ctl]; exact ⟨rfl, rfl, rfl, rfl, rfl, rfl, rfl⟩

/-- C9: for every 8-bit duty argument and every period `p` with
`p * 100 < 2 ^ 32`, `PWM_SetDuty` writes the same value
`min duty 100 * p / 100` (integer division) to the compare registers of all
three channels, in three driver calls, sets `duty_now` to `min duty 100`,
and leaves `pwm_enabled`, `duty_target`, `pwm_freq`, the period, the output
enable bits and the printed text unchanged. -/
theorem setDuty_writes_three_channels (duty : Nat) (w : Sys)
    (_h8 : duty < 2 ^ 8) (hp : w.ctl.htim1.period * 100 < 2 ^ 32) :
    (PWM_SetDuty duty w).ctl.htim1.ccr1 = min duty 100 * w.ctl.htim1.period / 100 ∧
    (PWM_SetDuty duty w).ctl.htim1.ccr2 = min duty 100 * w.ctl.htim1.period / 100 ∧
    (PWM_SetDuty duty w).ctl.htim1.ccr3 = min duty 100 * w.ctl.htim1.period / 100 ∧
    (PWM_SetDuty duty w).ops = w.ops ++
      [.setCompare .ch1 (min duty 100 * w.ctl.htim1.period / 100),
       .setCompare .ch2 (min duty 100 * w.ctl.htim1.period / 100),
       .setCompare .ch3 (min duty 100 * w.ctl.htim1.period / 100)] ∧
    (PWM_SetDuty duty w).ctl.duty_now = min duty 100 ∧
    (PWM_SetDuty duty w).ctl.pwm_enabled = w.ctl.pwm_enabled ∧
    (PWM_SetDuty duty w).ctl.duty_target = w.ctl.duty_target ∧
    (PWM_SetDuty duty w).ctl.pwm_freq = w.ctl.pwm_freq ∧
    (PWM_SetDuty duty w).ctl.htim1.period = w.ctl.htim1.period ∧
    (PWM_SetDuty duty w).ctl.htim1.outputsOn = w.ctl.htim1.outputsOn ∧
    (PWM_SetDuty duty w).ctl.htim1.outputsOff = w.ctl.htim1.outputsOff ∧
    (PWM_SetDuty duty w).tx = w.tx := by
  have hv : (w.ctl.htim1.period * min duty 100) % 2 ^ 32 / 100
      = min duty 100 * w.ctl.htim1.period / 100 := by
    have hle : w.ctl.htim1.period * min duty 100 ≤ w.ctl.htim1.period * 100 :=
      Nat.mul_le_mul_left _ (Nat.min_le_right _ _)
    rw [Nat.mod_eq_of_lt (lt_of_le_of_lt hle hp), Nat.mul_comm]
  rw [PWM_SetDuty_ops, PWM_SetDuty_ctl, PWM_SetDuty_tx, hv]
  exact ⟨rfl, rfl, rfl, rfl, rfl, rfl, rfl, rfl, rfl, rfl, rfl, rfl⟩

theorem setDuty_writes_three_channels_witness :
    ((200 : Nat) < 2 ^ 8 ∧ (boot 16000000).ctl.htim1.period * 100 < 2 ^ 32) ∧
    ((PWM_SetDuty 200 (boot 16000000)).ctl.htim1.ccr1
        = min 200 100 * (boot 16000000).ctl.htim1.period / 100 ∧
     (PWM_SetDuty 200 (boot 16000000)).ctl.htim1.ccr2
        = min 200 100 * (boot 16000000).ctl.htim1.period / 100 ∧
     (PWM_SetDuty 200 (boot 16000000)).ctl.htim1.ccr3
        = min 200 100 * (boot 16000000).ctl.htim1.period / 100 ∧
     (PWM_SetDuty 200 (boot 16000000)).ops = (boot 16000000).ops ++
      [.setCompare .ch1 (min 200 100 * (boot 16000000).ctl.htim1.period / 100),
       .setCompare .ch2 (min 200 100 * (boot 16000000).ctl.htim1.period / 100),
       .setCompare .ch3 (min 200 100 * (boot 16000000).ctl.htim1.period / 100)] ∧
     (PWM_SetDuty 200 (boot 16000000)).ctl.duty_now = min 200 100 ∧
     (PWM_SetDuty 200 (boot 16000000)).ctl.pwm_enabled = (boot 16000000).ctl.pwm_enabled ∧
     (PWM_SetDuty 200 (boot 16000000)).ctl.duty_target = (boot 16000000).ctl.duty_target ∧
     (PWM_SetDuty 200 (boot 16000000)).ctl.pwm_freq = (boot 16000000).ctl.pwm_freq ∧
     (PWM_SetDuty 200 (boot 16000000)).ctl.htim1.period = (boot 16000000).ctl.htim1.period ∧
     (PWM_SetDuty 200 (boot 16000000)).ctl.htim1.outputsOn
        = (boot 16000000).ctl.htim1.outputsOn ∧
     (PWM_SetDuty 200 (boot 16000000)).ctl.htim1.outputsOff
        = (boot 16000000).ctl.htim1.outputsOff ∧
     (PWM_SetDuty 200 (boot 16000000)).tx = (boot 16000000).tx) :=
  ⟨by decide, setDuty_writes_three_channels 200 (boot 16000000) (by decide) (by decide)⟩

/-- C10: starting from write index 0 (where the reception is armed), for
every byte sequence `s` of length below 64 without CR, LF or NUL, receiving
the bytes of `s` one at a time and then one terminator byte (CR or LF)
leaves `uart_ready` set and `uart_idx = 0`, re-arms the reception at index
0, and the C string at the start of `uart_buf` is exactly `s`: the
terminator byte is not part of it. -/
theorem line_published_on_terminator (r : Rx) (s : List Char) (t : Char)
    (hidx : r.uart_idx = 0) (harm : r.rx_at = 0)
    (hbuf : r.uart_buf.length = UART_BUF_SIZE)
    (hlen : s.length < UART_BUF_SIZE)
    (hs : ∀ c ∈ s, c ≠ '\r' ∧ c ≠ '\n' ∧ c ≠ Char.ofNat 0)
    (ht : t = '\r' ∨ t = '\n') :
    (rxBytes (s ++ [t]) r).uart_ready = 1 ∧
    (rxBytes (s ++ [t]) r).uart_idx = 0 ∧
    (rxBytes (s ++ [t]) r).rx_at = 0 ∧
    cstr (rxBytes (s ++ [t]) r).uart_buf = s := by
  have hs1 : ∀ c ∈ s, c ≠ '\r' ∧ c ≠ '\n' := fun c hc => ⟨(hs c hc).1, (hs c hc).2.1⟩
  have hs2 : ∀ c ∈ s, c ≠ Char.ofNat 0 := fun c hc => (hs c hc).2.2
  obtain ⟨h1, h2, _, h4, h5⟩ :=
    rxBytes_data s r hs1 (by rw [harm, hidx]) hbuf (by rw [hidx]; omega)
  rw [hidx] at h1 h2 h5
  simp only [Nat.zero_add, List.take_zero, List.nil_append] at h1 h2 h5
  have hlt : (rxBytes s r).uart_idx < (rxBytes s r).uart_buf.length := by
    rw [h1, h4]; exact hlen
  have hterm := rxByte_terminator t (rxBytes s r) ht (by rw [h1, h2]) hlt
  have hfin : rxBytes (s ++ [t]) r = rxByte t (rxBytes s r) := by
    rw [rxBytes_append]; rfl
  rw [hfin, hterm]
  refine ⟨rfl, rfl, rfl, ?_⟩
  simp only
  rw [set_eq_take_cons_drop _ _ _ hlt, h1, h5]
  exact cstr_append_nul s _ hs2

theorem line_published_on_terminator_witness :
    ((initRx (List.replicate 64 'x')).uart_idx = 0 ∧
      (initRx (List.replicate 64 'x')).rx_at = 0 ∧
      (initRx (List.replicate 64 'x')).uart_buf.length = UART_BUF_SIZE ∧
      "set 80".toList.length < UART_BUF_SIZE ∧
      (∀ c ∈ "set 80".toList, c ≠ '\r' ∧ c ≠ '\n' ∧ c ≠ Char.ofNat 0) ∧
      ('\r' = '\r' ∨ '\r' = '\n')) ∧
    ((rxBytes ("set 80".toList ++ ['\r']) (initRx (List.replicate 64 'x'))).uart_ready = 1 ∧
     (rxBytes ("set 80".toList ++ ['\r']) (initRx (List.replicate 64 'x'))).uart_idx = 0 ∧
     (rxBytes ("set 80".toList ++ ['\r']) (initRx (List.replicate 64 'x'))).rx_at = 0 ∧
     cstr (rxBytes ("set 80".toList ++ ['\r']) (initRx (List.replicate 64 'x'))).uart_buf
        = "set 80".toList) :=
  ⟨by decide,
   line_published_on_terminator (initRx (List.replicate 64 'x')) "set 80".toList '\r'
     (by decide) (by decide) (by decide) (by decide) (by decide) (by decide)⟩

/-- C11, as the code behaves: at boot with a 16 MHz clock, the text written
while processing `freq 10000` is not the single line `FREQ 10000 Hz`. -/
theorem freq_reply_is_not_one_line :
    (UART_Process 16000000 "freq 10000".toList (boot 16000000)).tx
      ≠ (boot 16000000).tx ++ "FREQ 10000 Hz\r\n".toList := by
  decide

/-- C11, amended: for every `f` in `[1000, 50000]`, the text written while
processing the line `freq f` is the three lines `PWM STOP`, `PWM START` and
`FREQ f Hz`, in that order: `PWM_SetFreq` calls `PWM_Stop` and `PWM_Start`,
which print their own confirmations. -/
theorem freq_reply_three_lines (clk f : Nat) (w : Sys) (hlo : 1000 ≤ f) (hhi : f ≤ 50000) :
    (UART_Process clk ("freq ".toList ++ intText f) w).tx =
      w.tx ++ "PWM STOP\r\n".toList ++ "PWM START\r\n".toList
        ++ ("FREQ ".toList ++ dec f ++ " Hz\r\n".toList) := by
  have hf32 : f < 4294967296 := by omega
  rw [UART_Process_freq, atoi_intText, toU32_of_small f hf32]
  exact PWM_SetFreq_ok_tx clk f w hlo hhi

theorem freq_reply_three_lines_witness :
    ((1000 : Nat) ≤ 10000 ∧ (10000 : Nat) ≤ 50000) ∧
    (UART_Process 16000000 ("freq ".toList ++ intText (10000 : Nat)) (boot 16000000)).tx =
      (boot 16000000).tx ++ "PWM STOP\r\n".toList ++ "PWM START\r\n".toList
        ++ ("FREQ ".toList ++ dec 10000 ++ " Hz\r\n".toList) :=
  ⟨by decide, freq_reply_three_lines 16000000 10000 (boot 16000000) (by decide) (by decide)⟩

/-- C12: the predicate `duty_now ≤ 100`, `duty_target ≤ 100` and
`1000 ≤ pwm_freq ≤ 50000` holds in the initial state and after boot, and it
is preserved by `UART_Process` on every line, by every ramp step, by every
iteration of the main loop, and so by every sequence of commands and ramp
steps. -/
theorem range_invariant_preserved (clk t1 t2 last : Nat) (cmd : List Char)
    (evs : List Event) (rx : Rx) (w : Sys) (h : RangeInv w) :
    RangeInv (initSys clk) ∧ RangeInv (boot clk) ∧
    RangeInv (UART_Process clk cmd w) ∧
    RangeInv (rampStep w) ∧
    RangeInv (mainLoopIter clk t1 t2 { rx := rx, sys := w, last := last }).sys ∧
    RangeInv (run clk evs w) ∧
    RangeInv (run clk evs (boot clk)) := by
  refine ⟨(RangeInv_boot clk).1, (RangeInv_boot clk).2, RangeInv_UART_Process clk cmd w h,
    RangeInv_rampStep w h, ?_, RangeInv_run clk evs w h,
    RangeInv_run clk evs _ (RangeInv_boot clk).2⟩
  unfold mainLoopIter
  simp only
  split <;> split
  · exact RangeInv_rampStep _ (RangeInv_UART_Process clk _ w h)
  · exact RangeInv_UART_Process clk _ w h
  · exact RangeInv_rampStep w h
  · exact h

theorem range_invariant_preserved_witness :
    RangeInv sampleRamping ∧
    (RangeInv (initSys 16000000) ∧ RangeInv (boot 16000000) ∧
     RangeInv (UART_Process 16000000 "set 300".toList sampleRamping) ∧
     RangeInv (rampStep sampleRamping) ∧
     RangeInv (mainLoopIter 16000000 1021 1021
        { rx := sampleMachine.rx, sys := sampleRamping, last := 1000 }).sys ∧
     RangeInv (run 16000000 [.line "freq 999".toList, .ramp] sampleRamping) ∧
     RangeInv (run 16000000 [.line "freq 999".toList, .ramp] (boot 16000000))) :=
  ⟨by decide,
   range_invariant_preserved 16000000 1021 1021 1000 "set 300".toList
     [.line "freq 999".toList, .ramp] sampleMachine.rx sampleRamping (by decide)⟩

/-- C13: `uart_idx < 64` holds initially and after every invocation of the
receive-complete callback, whatever byte was received; the buffer keeps its
64 positions and the next reception is armed at `uart_buf[uart_idx]`. So the
position the callback reads, terminates and re-arms is always a valid index
of `uart_buf`, after any sequence of received bytes. -/
theorem rx_index_always_valid (buf bs : List Char) (b : Char) (u : Bool) (r : Rx)
    (hbuf : buf.length = UART_BUF_SIZE) (hr : RxInv r) :
    RxInv (initRx buf) ∧
    RxInv (HAL_UART_RxCpltCallback u r) ∧
    (HAL_UART_RxCpltCallback u r).uart_idx < 64 ∧
    (HAL_UART_RxCpltCallback u r).rx_at < (HAL_UART_RxCpltCallback u r).uart_buf.length ∧
    RxInv (rxByte b r) ∧
    RxInv (rxBytes bs (initRx buf)) ∧
    (rxBytes bs (initRx buf)).uart_idx < 64 := by
  have h0 : RxInv (initRx buf) := ⟨by simp [initRx, UART_BUF_SIZE], rfl, hbuf⟩
  have hc := RxInv_callback u r hr
  have hb := RxInv_rxBytes bs (initRx buf) h0
  refine ⟨h0, hc, hc.1, ?_, RxInv_rxByte b r hr, hb, hb.1⟩
  rw [hc.2.1, hc.2.2]
  exact hc.1

theorem rx_index_always_valid_witness :
    ((List.replicate 64 'x').length = UART_BUF_SIZE ∧
      RxInv (rxBytes "set".toList (initRx (List.replicate 64 'x')))) ∧
    (RxInv (initRx (List.replicate 64 'x')) ∧
     RxInv (HAL_UART_RxCpltCallback true
        (rxBytes "set".toList (initRx (List.replicate 64 'x')))) ∧
     (HAL_UART_RxCpltCallback true
        (rxBytes "set".toList (initRx (List.replicate 64 'x')))).uart_idx < 64 ∧
     (HAL_UART_RxCpltCallback true
        (rxBytes "set".toList (initRx (List.replicate 64 'x')))).rx_at
       < (HAL_UART_RxCpltCallback true
        (rxBytes "set".toList (initRx (List.replicate 64 'x')))).uart_buf.length ∧
     RxInv (rxByte 'b' (rxBytes "set".toList (initRx (List.replicate 64 'x')))) ∧
     RxInv (rxBytes "status\r".toList (initRx (List.replicate 64 'x'))) ∧
     (rxBytes "status\r".toList (initRx (List.replicate 64 'x'))).uart_idx < 64) :=
  ⟨by decide,
   rx_index_always_valid (List.replicate 64 'x') "status\r".toList 'b' true
     (rxBytes "set".toList (initRx (List.replicate 64 'x')))
     (by decide) (by decide)⟩

/-- C14, evaluated on the code: with a ramp in progress (duty 50, target
80) and the last step at tick 1000, the loop iteration at tick 1020, when
exactly 20 ms have elapsed, performs no step and leaves `last` unchanged;
the iteration at tick 1021 performs the step. Line 110 compares with `>`,
so a step needs 21 elapsed milliseconds. -/
theorem ramp_gate_skips_at_20ms (clk : Nat) :
    sampleMachine.sys.ctl.duty_now = 50 ∧ sampleMachine.sys.ctl.duty_target = 80 ∧
    (1020 + 2 ^ 32 - sampleMachine.last) % 2 ^ 32 = 20 ∧
    mainLoopIter clk 1020 1020 sampleMachine = sampleMachine ∧
    (mainLoopIter clk 1021 1021 sampleMachine).sys.ctl.duty_now = 51 ∧
    (mainLoopIter clk 1021 1021 sampleMachine).last = 1021 := by
  refine ⟨by decide, by decide, by decide, ?_, ?_, ?_⟩
  · have hr : ¬ sampleMachine.rx.uart_ready ≠ 0 := by decide
    have hg : ¬ (1020 + 2 ^ 32 - sampleMachine.last) % 2 ^ 32 > DUTY_STEP_DELAY := by decide
    simp only [mainLoopIter, hr, if_false, hg]
  · have hr : ¬ sampleMachine.rx.uart_ready ≠ 0 := by decide
    have hg : (1021 + 2 ^ 32 - sampleMachine.last) % 2 ^ 32 > DUTY_STEP_DELAY := by decide
    simp only [mainLoopIter, hr, if_false, hg, if_true]
    decide
  · have hr : ¬ sampleMachine.rx.uart_ready ≠ 0 := by decide
    have hg : (1021 + 2 ^ 32 - sampleMachine.last) % 2 ^ 32 > DUTY_STEP_DELAY := by decide
    simp only [mainLoopIter, hr, if_false, hg, if_true]

/-- C15: for every `f` in `[1000, 50000]` and every prior state, after
`PWM_SetFreq(f)` the flag `pwm_enabled` is set and all outputs are enabled,
also when the PWM was stopped before the call. -/
theorem freq_change_restarts_output (clk f : Nat) (w : Sys)
    (hlo : 1000 ≤ f) (hhi : f ≤ 50000) :
    (PWM_SetFreq clk f w).ctl.pwm_enabled = 1 ∧
    (PWM_SetFreq clk f w).ctl.htim1.outputsOn = true := by
  rw [PWM_SetFreq_ok_ctl clk f w hlo hhi]
  exact ⟨rfl, rfl⟩

theorem freq_change_restarts_output_witness :
    ((1000 : Nat) ≤ 10000 ∧ (10000 : Nat) ≤ 50000) ∧
    ((PWM_Stop (boot 16000000)).ctl.pwm_enabled = 0 ∧
     (PWM_Stop (boot 16000000)).ctl.htim1.outputsOff = true) ∧
    ((PWM_SetFreq 16000000 10000 (PWM_Stop (boot 16000000))).ctl.pwm_enabled = 1 ∧
     (PWM_SetFreq 16000000 10000 (PWM_Stop (boot 16000000))).ctl.htim1.outputsOn = true) :=
  ⟨by decide, by decide,
   freq_change_restarts_output 16000000 10000 (PWM_Stop (boot 16000000))
     (by decide) (by decide)⟩

/-- C16: for every `f` in `[1000, 50000]`, the driver calls issued by
`PWM_SetFreq(f)` are exactly, in this order: the six stop calls of
`PWM_Stop`, the write of the period, the writes of the three compare
registers, and the seven enable calls of `PWM_Start`. Replaying them from
the timer state before the call, the write of the period and the writes of
the compare registers all find every output disabled. -/
theorem freq_change_call_order (clk f : Nat) (w : Sys) (hlo : 1000 ≤ f) (hhi : f ≤ 50000) :
    (PWM_SetFreq clk f w).ops =
      w.ops ++ stopOps
        ++ [.setAutoreload ((clk / f + 2 ^ 32 - 1) % 2 ^ 32),
            .setCompare .ch1
              (((clk / f + 2 ^ 32 - 1) % 2 ^ 32 * min w.ctl.duty_now 100) % 2 ^ 32 / 100),
            .setCompare .ch2
              (((clk / f + 2 ^ 32 - 1) % 2 ^ 32 * min w.ctl.duty_now 100) % 2 ^ 32 / 100),
            .setCompare .ch3
              (((clk / f + 2 ^ 32 - 1) % 2 ^ 32 * min w.ctl.duty_now 100) % 2 ^ 32 / 100)]
        ++ startOps ∧
    writesWhileOff w.ctl.htim1
      (stopOps
        ++ [.setAutoreload ((clk / f + 2 ^ 32 - 1) % 2 ^ 32),
            .setCompare .ch1
              (((clk / f + 2 ^ 32 - 1) % 2 ^ 32 * min w.ctl.duty_now 100) % 2 ^ 32 / 100),
            .setCompare .ch2
              (((clk / f + 2 ^ 32 - 1) % 2 ^ 32 * min w.ctl.duty_now 100) % 2 ^ 32 / 100),
            .setCompare .ch3
              (((clk / f + 2 ^ 32 - 1) % 2 ^ 32 * min w.ctl.duty_now 100) % 2 ^ 32 / 100)]
        ++ startOps) = true :=
  ⟨PWM_SetFreq_ok_ops clk f w hlo hhi, writesWhileOff_freq_change _ _ _⟩

theorem freq_change_call_order_witness :
    ((1000 : Nat) ≤ 10000 ∧ (10000 : Nat) ≤ 50000) ∧
    ((PWM_SetFreq 16000000 10000 (boot 16000000)).ops =
      (boot 16000000).ops ++ stopOps
        ++ [.setAutoreload ((16000000 / 10000 + 2 ^ 32 - 1) % 2 ^ 32),
            .setCompare .ch1
              (((16000000 / 10000 + 2 ^ 32 - 1) % 2 ^ 32
                  * min (boot 16000000).ctl.duty_now 100) % 2 ^ 32 / 100),
            .setCompare .ch2
              (((16000000 / 10000 + 2 ^ 32 - 1) % 2 ^ 32
                  * min (boot 16000000).ctl.duty_now 100) % 2 ^ 32 / 100),
            .setCompare .ch3
              (((16000000 / 10000 + 2 ^ 32 - 1) % 2 ^ 32
                  * min (boot 16000000).ctl.duty_now 100) % 2 ^ 32 / 100)]
        ++ startOps ∧
    writesWhileOff (boot 16000000).ctl.htim1
      (stopOps
        ++ [.setAutoreload ((16000000 / 10000 + 2 ^ 32 - 1) % 2 ^ 32),
            .setCompare .ch1
              (((16000000 / 10000 + 2 ^ 32 - 1) % 2 ^ 32
                  * min (boot 16000000).ctl.duty_now 100) % 2 ^ 32 / 100),
            .setCompare .ch2
              (((16000000 / 10000 + 2 ^ 32 - 1) % 2 ^ 32
                  * min (boot 16000000).ctl.duty_now 100) % 2 ^ 32 / 100),
            .setCompare .ch3
              (((16000000 / 10000 + 2 ^ 32 - 1) % 2 ^ 32
                  * min (boot 16000000).ctl.duty_now 100) % 2 ^ 32 / 100)]
        ++ startOps) = true) :=
  ⟨by decide, freq_change_call_order 16000000 10000 (boot 16000000) (by decide) (by decide)⟩

/-- C17: a byte other than CR and LF is kept at the current write position,
the position advances to `(uart_idx + 1) mod 64` and `uart_ready` is not
touched. Consequently, starting from index 0, for every sequence `s` of any
length `L` without CR, LF or NUL, receiving `s` and then one terminator
leaves `uart_ready` set and `uart_idx = 0`, and the C string at the start
of `uart_buf` is exactly the last `L mod 64` bytes of `s`. -/
theorem overlong_line_wraps (r r0 : Rx) (b t : Char) (s : List Char)
    (hr : RxInv r) (hb : b ≠ '\r' ∧ b ≠ '\n')
    (h0 : RxInv r0) (hidx : r0.uart_idx = 0)
    (hs : ∀ c ∈ s, c ≠ '\r' ∧ c ≠ '\n' ∧ c ≠ Char.ofNat 0)
    (ht : t = '\r' ∨ t = '\n') :
    ((rxByte b r).uart_buf = r.uart_buf.set r.uart_idx b ∧
      (rxByte b r).uart_idx = (r.uart_idx + 1) % 64 ∧
      (rxByte b r).uart_ready = r.uart_ready) ∧
    ((rxBytes (s ++ [t]) r0).uart_ready = 1 ∧
      (rxBytes (s ++ [t]) r0).uart_idx = 0 ∧
      cstr (rxBytes (s ++ [t]) r0).uart_buf = s.drop (s.length - s.length % 64)) := by
  constructor
  · rw [rxByte_data_wrap b r hb hr]
    exact ⟨rfl, rfl, rfl⟩
  · have hs1 : ∀ c ∈ s, c ≠ '\r' ∧ c ≠ '\n' := fun c hc => ⟨(hs c hc).1, (hs c hc).2.1⟩
    have hs2 : ∀ c ∈ s.drop (s.length - s.length % 64), c ≠ Char.ofNat 0 :=
      fun c hc => (hs c (List.mem_of_mem_drop hc)).2.2
    obtain ⟨h1, _, h3⟩ := rxBytes_wrap s r0 hs1 h0 hidx
    have hinv := RxInv_rxBytes s r0 h0
    have hlt : (rxBytes s r0).uart_idx < (rxBytes s r0).uart_buf.length := by
      rw [hinv.2.2]; exact hinv.1
    have hterm := rxByte_terminator t (rxBytes s r0) ht hinv.2.1 hlt
    have hfin : rxBytes (s ++ [t]) r0 = rxByte t (rxBytes s r0) := by
      rw [rxBytes_append]; rfl
    rw [hfin, hterm]
    refine ⟨rfl, rfl, ?_⟩
    simp only
    rw [set_eq_take_cons_drop _ _ _ hlt, h1, h3]
    exact cstr_append_nul _ _ hs2

theorem overlong_line_wraps_witness :
    (RxInv sampleRxAtEnd ∧
      ('b' ≠ '\r' ∧ 'b' ≠ '\n') ∧
      RxInv (initRx (List.replicate 64 'x')) ∧
      (initRx (List.replicate 64 'x')).uart_idx = 0 ∧
      (∀ c ∈ sampleLongLine, c ≠ '\r' ∧ c ≠ '\n' ∧ c ≠ Char.ofNat 0) ∧
      ('\n' = '\r' ∨ '\n' = '\n')) ∧
    (((rxByte 'b' sampleRxAtEnd).uart_buf
        = sampleRxAtEnd.uart_buf.set
            sampleRxAtEnd.uart_idx 'b' ∧
      (rxByte 'b' sampleRxAtEnd).uart_idx
        = (sampleRxAtEnd.uart_idx + 1) % 64 ∧
      (rxByte 'b' sampleRxAtEnd).uart_ready
        = sampleRxAtEnd.uart_ready) ∧
     ((rxBytes (sampleLongLine ++ ['\n']) (initRx (List.replicate 64 'x'))).uart_ready = 1 ∧
      (rxBytes (sampleLongLine ++ ['\n']) (initRx (List.replicate 64 'x'))).uart_idx = 0 ∧
      cstr (rxBytes (sampleLongLine ++ ['\n']) (initRx (List.replicate 64 'x'))).uart_buf
        = sampleLongLine.drop (sampleLongLine.length - sampleLongLine.length % 64))) :=
  ⟨⟨by decide, by decide, by decide, by decide, by decide, by decide⟩,
   overlong_line_wraps sampleRxAtEnd
     (initRx (List.replicate 64 'x')) 'b' '\n' sampleLongLine
     (by decide) (by decide) (by decide) (by decide) (by decide) (by decide)⟩

/-- C18: with a 32-bit clock rate `clk ≥ 50000`, in every state reached
from the boot state by any sequence of command lines and ramp steps, the
three compare registers hold one identical value, and that value is
`duty_now * period / 100` (integer division) for the current period. -/
theorem compare_registers_mirror_duty (clk : Nat) (evs : List Event)
    (hclk : 50000 ≤ clk) (h32 : clk < 2 ^ 32) :
    (run clk evs (boot clk)).ctl.htim1.ccr1 = (run clk evs (boot clk)).ctl.htim1.ccr2 ∧
    (run clk evs (boot clk)).ctl.htim1.ccr2 = (run clk evs (boot clk)).ctl.htim1.ccr3 ∧
    (run clk evs (boot clk)).ctl.htim1.ccr1 =
      (run clk evs (boot clk)).ctl.duty_now * (run clk evs (boot clk)).ctl.htim1.period / 100 := by
  obtain ⟨h1, h2, h3, _, _⟩ :=
    CompareInv_run clk evs (boot clk) (CompareInv_boot clk hclk h32) hclk h32
  exact ⟨by rw [h1, h2], by rw [h2, h3], h1⟩

theorem compare_registers_mirror_duty_witness :
    ((50000 : Nat) ≤ 16000000 ∧ (16000000 : Nat) < 2 ^ 32) ∧
    ((run 16000000 [.line "set 80".toList, .ramp, .line "freq 10000".toList, .ramp]
        (boot 16000000)).ctl.htim1.ccr1
      = (run 16000000 [.line "set 80".toList, .ramp, .line "freq 10000".toList, .ramp]
        (boot 16000000)).ctl.htim1.ccr2 ∧
     (run 16000000 [.line "set 80".toList, .ramp, .line "freq 10000".toList, .ramp]
        (boot 16000000)).ctl.htim1.ccr2
      = (run 16000000 [.line "set 80".toList, .ramp, .line "freq 10000".toList, .ramp]
        (boot 16000000)).ctl.htim1.ccr3 ∧
     (run 16000000 [.line "set 80".toList, .ramp, .line "freq 10000".toList, .ramp]
        (boot 16000000)).ctl.htim1.ccr1
      = (run 16000000 [.line "set 80".toList, .ramp, .line "freq 10000".toList, .ramp]
          (boot 16000000)).ctl.duty_now
        * (run 16000000 [.line "set 80".toList, .ramp, .line "freq 10000".toList, .ramp]
          (boot 16000000)).ctl.htim1.period / 100) :=
  ⟨by decide,
   compare_registers_mirror_duty 16000000
     [.line "set 80".toList, .ramp, .line "freq 10000".toList, .ramp] (by decide) (by decide)⟩

/-- C19: for every 32-bit period `p` and every 8-bit duty argument, the
value `PWM_SetDuty` writes to the three compare registers,
`((p * min duty 100) mod 2 ^ 32) / 100`, is at most `p`, also when the
32-bit product wraps around. -/
theorem pulse_never_exceeds_period (duty : Nat) (w : Sys)
    (_h8 : duty < 2 ^ 8) (_h32 : w.ctl.htim1.period < 2 ^ 32) :
    (PWM_SetDuty duty w).ctl.htim1.ccr1
        = (w.ctl.htim1.period * min duty 100) % 2 ^ 32 / 100 ∧
    (PWM_SetDuty duty w).ctl.htim1.ccr1 ≤ w.ctl.htim1.period ∧
    (PWM_SetDuty duty w).ctl.htim1.ccr2 ≤ w.ctl.htim1.period ∧
    (PWM_SetDuty duty w).ctl.htim1.ccr3 ≤ w.ctl.htim1.period := by
  have h := pulse_le_period w.ctl.htim1.period (min duty 100) (Nat.min_le_right _ _)
  rw [PWM_SetDuty_ctl]
  exact ⟨rfl, h, h, h⟩

theorem pulse_never_exceeds_period_witness :
    ((255 : Nat) < 2 ^ 8 ∧
      (hal (.setAutoreload 4294967295) (boot 16000000)).ctl.htim1.period < 2 ^ 32) ∧
    ((PWM_SetDuty 255 (hal (.setAutoreload 4294967295) (boot 16000000))).ctl.htim1.ccr1
        = ((hal (.setAutoreload 4294967295) (boot 16000000)).ctl.htim1.period * min 255 100)
            % 2 ^ 32 / 100 ∧
     (PWM_SetDuty 255 (hal (.setAutoreload 4294967295) (boot 16000000))).ctl.htim1.ccr1
        ≤ (hal (.setAutoreload 4294967295) (boot 16000000)).ctl.htim1.period ∧
     (PWM_SetDuty 255 (hal (.setAutoreload 4294967295) (boot 16000000))).ctl.htim1.ccr2
        ≤ (hal (.setAutoreload 4294967295) (boot 16000000)).ctl.htim1.period ∧
     (PWM_SetDuty 255 (hal (.setAutoreload 4294967295) (boot 16000000))).ctl.htim1.ccr3
        ≤ (hal (.setAutoreload 4294967295) (boot 16000000)).ctl.htim1.period) :=
  ⟨by decide,
   pulse_never_exceeds_period 255 (hal (.setAutoreload 4294967295) (boot 16000000))
     (by decide) (by decide)⟩

/-- C20: for every `f` in `[1000, 50000]` and every 32-bit clock rate
`clk ≥ f`, the period computed by `PWM_SetFreq` is `clk / f - 1` with
`clk / f ≥ 1`, so the subtraction does not underflow; for every
`duty ≤ 100` the product `period * duty` is below `2 ^ 32`, and a following
`PWM_SetDuty duty` writes the exact value `period * duty / 100` to the three
compare registers. The `PWM_SetDuty(duty_now)` inside `PWM_SetFreq` does so
with the clamped `duty_now`. -/
theorem freq_period_and_pulse_exact (clk f duty : Nat) (w : Sys)
    (hlo : 1000 ≤ f) (hhi : f ≤ 50000) (hclk : f ≤ clk) (h32 : clk < 2 ^ 32)
    (hd : duty ≤ 100) :
    1 ≤ clk / f ∧
    (PWM_SetFreq clk f w).ctl.htim1.period = clk / f - 1 ∧
    (clk / f - 1) * duty < 2 ^ 32 ∧
    (PWM_SetFreq clk f w).ctl.htim1.ccr1 = (clk / f - 1) * min w.ctl.duty_now 100 / 100 ∧
    (PWM_SetDuty duty (PWM_SetFreq clk f w)).ctl.htim1.ccr1 = (clk / f - 1) * duty / 100 ∧
    (PWM_SetDuty duty (PWM_SetFreq clk f w)).ctl.htim1.ccr2 = (clk / f - 1) * duty / 100 ∧
    (PWM_SetDuty duty (PWM_SetFreq clk f w)).ctl.htim1.ccr3 = (clk / f - 1) * duty / 100 := by
  obtain ⟨ha, hb⟩ := arr_no_wrap clk f hlo hclk h32
  have hpos : 0 < f := by omega
  have h1 : 1 ≤ clk / f := (Nat.one_le_div_iff hpos).2 hclk
  have hprod : ∀ d : Nat, d ≤ 100 → (clk / f - 1) * d < 2 ^ 32 := fun d hd' =>
    lt_of_le_of_lt (Nat.mul_le_mul_left _ hd') hb
  have hmin : min duty 100 = duty := Nat.min_eq_left hd
  have hctl := PWM_SetFreq_ok_ctl clk f w hlo hhi
  rw [ha, Nat.mod_eq_of_lt (hprod _ (Nat.min_le_right _ _))] at hctl
  have hper : (PWM_SetFreq clk f w).ctl.htim1.period = clk / f - 1 := by rw [hctl]
  have hccr : (PWM_SetFreq clk f w).ctl.htim1.ccr1
      = (clk / f - 1) * min w.ctl.duty_now 100 / 100 := by rw [hctl]
  refine ⟨h1, hper, hprod duty hd, hccr, ?_, ?_, ?_⟩ <;>
    · rw [PWM_SetDuty_ctl, hper, hmin, Nat.mod_eq_of_lt (hprod duty hd)]

theorem freq_period_and_pulse_exact_witness :
    ((1000 : Nat) ≤ 1000 ∧ (1000 : Nat) ≤ 50000 ∧ (1000 : Nat) ≤ 4294967295 ∧
      (4294967295 : Nat) < 2 ^ 32 ∧ (100 : Nat) ≤ 100) ∧
    (1 ≤ 4294967295 / 1000 ∧
     (PWM_SetFreq 4294967295 1000 (boot 16000000)).ctl.htim1.period = 4294967295 / 1000 - 1 ∧
     (4294967295 / 1000 - 1) * 100 < 2 ^ 32 ∧
     (PWM_SetFreq 4294967295 1000 (boot 16000000)).ctl.htim1.ccr1
        = (4294967295 / 1000 - 1) * min (boot 16000000).ctl.duty_now 100 / 100 ∧
     (PWM_SetDuty 100 (PWM_SetFreq 4294967295 1000 (boot 16000000))).ctl.htim1.ccr1
        = (4294967295 / 1000 - 1) * 100 / 100 ∧
     (PWM_SetDuty 100 (PWM_SetFreq 4294967295 1000 (boot 16000000))).ctl.htim1.ccr2
        = (4294967295 / 1000 - 1) * 100 / 100 ∧
     (PWM_SetDuty 100 (PWM_SetFreq 4294967295 1000 (boot 16000000))).ctl.htim1.ccr3
        = (4294967295 / 1000 - 1) * 100 / 100) :=
  ⟨by decide,
   freq_period_and_pulse_exact 4294967295 1000 100 (boot 16000000)
     (by decide) (by decide) (by decide) (by decide) (by decide)⟩

end PwmCtl
